import Mathlib

/-!
Verification development for the pragmatic anisotropic adaptive remeshing
engine (2D/3D simplicial meshes).  The C++ sources embedded here are
`Coarsen2D.h` (edge-collapse coarsening), `Refine2D.h` (edge refinement) and
`Swapping.h` (2D edge flips and 3D face/edge swaps).

Conventions of the shallow embedding:
* machine floating-point values (`real_t`, `double`) are modelled by `ℚ`;
* geometric and metric helpers that live in headers outside this source tree
  (`Mesh::calc_edge_length`, `ElementProperty::area`,
  `ElementProperty::lipnikov`, the `Surface2D` predicates) are uninterpreted
  data carried by the state: every theorem is parametric in them;
* `std::set` containers are modelled by sorted duplicate-free lists, and
  `std::multimap` iteration by a stable sort (`List.insertionSort`);
* the OpenMP loops are modelled by their canonical sequential schedule
  (thread 0 executes all iterations in index order).
-/

attribute [local semireducible] Rat.mul Rat.add Rat.sub Rat.inv

namespace Pragmatic

/-! ### Generic ordered-set helpers (model of `std::set<index_t>`) -/

/-- Ordered insertion into a sorted duplicate-free list, the model of
`std::set::insert`. -/
def setInsert (x : Nat) : List Nat → List Nat
  | [] => [x]
  | y :: ys =>
    if x < y then x :: y :: ys
    else if x = y then y :: ys
    else y :: setInsert x ys

/-- Model of `std::set::erase`. -/
def setErase (x : Nat) (l : List Nat) : List Nat := l.filter (fun y => y ≠ x)

/-- Model of `std::set_intersection` on sorted ranges: keeps the elements of
the first list that also occur in the second. -/
def setInter (a b : List Nat) : List Nat := a.filter (fun x => b.contains x)

/-! ### Coarsening (`Coarsen2D.h`)

State of the 2D coarsening operator.  The mesh proper (adjacency, the
element-node table and the geometric callables) is `CMesh`; the
`dynamic_vertex` work array of `Coarsen2D` sits next to it in `CState`. -/

structure CMesh where
  /-- `Mesh::NNList` - node-node adjacency. -/
  NNList : List (List Nat)
  /-- `Mesh::NEList` - node-element adjacency, each entry a sorted set. -/
  NEList : List (List Nat)
  /-- `Mesh::_ENList` - flat element-node table, 3 entries per triangle;
  a negative first entry marks an erased element. -/
  ENList : List Int
  /-- `Mesh::calc_edge_length` (defined in `Mesh.h`, outside this source
  tree): metric edge length between two vertices; uninterpreted. -/
  edgeLen : Nat → Nat → ℚ
  /-- Composition of `Mesh::get_coords` with `ElementProperty::area`
  (both outside this source tree): signed area of the triangle spanned by
  three vertex ids; uninterpreted. -/
  triArea : Int → Int → Int → ℚ
  /-- `Surface2D::is_corner_vertex`; uninterpreted. -/
  is_corner : Nat → Bool
  /-- `Surface2D::is_collapsible`; uninterpreted. -/
  is_collapsible : Nat → Nat → Bool
  /-- `Surface2D::contains_node`; uninterpreted. -/
  surfContains : Nat → Bool
  /-- Membership in `Mesh::recv_halo`. -/
  recv_halo : Nat → Bool
  /-- `Mesh::is_owned_node`. -/
  is_owned : Nat → Bool

structure CState where
  mesh : CMesh
  /-- The `dynamic_vertex` array of `Coarsen2D`. -/
  dynamic_vertex : List Int

/-- Vertex `k` of element `e` as stored in the flat `_ENList`. -/
def CMesh.elemNode (m : CMesh) (e k : Nat) : Int := m.ENList.getD (3 * e + k) (-1)

/-- Candidate collapse targets of `rm_vertex`: the neighbours that are kept
in the `short_edges` multimap - not on the receive halo, collapsible
according to the surface, and at metric distance `< L_low`
(`Coarsen2D::coarsen_identify_kernel`, first loop). -/
def identCandidates (m : CMesh) (rm : Nat) (Llow : ℚ) : List Nat :=
  (m.NNList.getD rm []).filter fun nn =>
    !(m.recv_halo nn) && m.is_collapsible rm nn && decide (m.edgeLen rm nn < Llow)

/-- The candidates in the iteration order of the `short_edges` multimap:
ascending metric length, insertion order among equal lengths (stable sort). -/
def identSorted (m : CMesh) (rm : Nat) (Llow : ℚ) : List Nat :=
  (identCandidates m rm Llow).insertionSort
    (fun a b => m.edgeLen rm a ≤ m.edgeLen rm b)

/-- The area test of `coarsen_identify_kernel`: some element around
`rm_vertex` that survives the collapse onto `t` would have
`area/orig_area ≤ 1.0e-3`. -/
def areaReject (m : CMesh) (rm t : Nat) : Bool :=
  let collapsed := setInter (m.NEList.getD rm []) (m.NEList.getD t [])
  (m.NEList.getD rm []).any fun ee =>
    if collapsed.contains ee then false
    else
      let n0 := m.elemNode ee 0
      let n1 := m.elemNode ee 1
      let n2 := m.elemNode ee 2
      let p0 := if n0 = (rm : Int) then (t : Int) else n0
      let p1 := if n1 = (rm : Int) then (t : Int) else n1
      let p2 := if n2 = (rm : Int) then (t : Int) else n2
      decide (m.triArea p0 p1 p2 / m.triArea n0 n1 n2 ≤ 1 / 1000)

/-- The edge-length test of `coarsen_identify_kernel`: some new edge from
`t` would be longer than `L_max`. -/
def lengthReject (m : CMesh) (rm t : Nat) (Lmax : ℚ) : Bool :=
  (m.NNList.getD rm []).any fun nn =>
    if t = nn then false else decide (m.edgeLen t nn > Lmax)

/-- Rejection test for collapsing `rm_vertex` onto `t`
(the body of the `while(short_edges.size())` loop). -/
def checkReject (m : CMesh) (rm t : Nat) (Lmax : ℚ) : Bool :=
  areaReject m rm t || lengthReject m rm t Lmax

/-- The `while(short_edges.size())` loop of `coarsen_identify_kernel`,
threading the (read-only) state together with the `reject_collapse` flag and
the running `target_vertex`. -/
def identLoop (s : CState) (rm : Nat) (Lmax : ℚ) :
    List Nat → Bool → Int → Int × CState
  | [], reject, target => (if reject then -2 else target, s)
  | t :: rest, _, _ =>
    if checkReject s.mesh rm t Lmax then identLoop s rm Lmax rest true (t : Int)
    else ((t : Int), s)

/-- `Coarsen2D::coarsen_identify_kernel`.  The C++ method is `const`; the
translation threads the full operator state through every statement so that
the absence of writes is a provable property rather than a convention. -/
def coarsen_identify_kernel (s : CState) (rm : Nat) (Llow Lmax : ℚ) :
    Int × CState :=
  if (s.mesh.NNList.getD rm []).isEmpty then (-1, s)
  else if s.mesh.is_corner rm then (-1, s)
  else if !(s.mesh.is_owned rm) then (-1, s)
  else identLoop s rm Lmax (identSorted s.mesh rm Llow) false (-1)

/-- Turn a list into a sorted duplicate-free set. -/
def toSet (l : List Nat) : List Nat := l.foldl (fun acc x => setInsert x acc) []

/-- Modelled from the spec: `Mesh::erase_element` is declared in `Mesh.h`,
which is not part of this source tree.  Per the specification an element is
logically erased by setting its first node index to a negative sentinel, and
the node-element adjacency of its vertices is pruned (the caller in
`Coarsen2D::coarsen_kernel` relies on the erased elements disappearing from
`NEList`). -/
def eraseElement (m : CMesh) (e : Nat) : CMesh :=
  let prune := fun (ne : List (List Nat)) (v : Int) =>
    if 0 ≤ v then ne.set v.toNat (setErase e (ne.getD v.toNat [])) else ne
  let ne := prune (prune (prune m.NEList (m.elemNode e 0)) (m.elemNode e 1))
    (m.elemNode e 2)
  { m with NEList := ne, ENList := m.ENList.set (3 * e) (-1) }

/-- Modelled from the spec: `Mesh::erase_vertex` is declared in `Mesh.h`,
outside this source tree.  The vertex is logically erased: its adjacency
lists are cleared (`coarsen_identify_kernel` recognises a dead vertex by an
empty `NNList`). -/
def eraseVertex (m : CMesh) (v : Nat) : CMesh :=
  { m with NNList := m.NNList.set v [], NEList := m.NEList.set v [] }

/-- Renumber `rm` to `t` in the first matching slot of element `ee`
(the renumbering loop of `coarsen_kernel` breaks after the first hit). -/
def renumberElem (en : List Int) (ee rm t : Nat) : List Int :=
  match ([0, 1, 2].findIdx? fun k => en.getD (3 * ee + k) (-1) = (rm : Int)) with
  | some k => en.set (3 * ee + k) (t : Int)
  | none => en

/-- The `NNList` surgery of `coarsen_kernel`: walk the neighbours of `rm`,
redirect or drop their back references, and accumulate the new patch of `t`.
`Mesh::get_node_patch` lives outside this source tree; modelled from the
spec as the set of current neighbours of the vertex. -/
def nnSurgery (NN : List (List Nat)) (rm t : Nat) :
    List (List Nat) × List Nat :=
  (NN.getD rm []).foldl
    (fun acc nn =>
      if nn = t then acc
      else
        let lnn := acc.1.getD nn []
        let upd := match lnn.findIdx? (fun y => y = rm) with
          | some j =>
            if acc.2.contains nn then acc.1.set nn (lnn.eraseIdx j)
            else acc.1.set nn (lnn.set j t)
          | none => acc.1
        (upd, setInsert nn acc.2))
    (NN, toSet (NN.getD t []))

/-- The mesh part of `Coarsen2D::coarsen_kernel` (everything before the
`dynamic_vertex` re-evaluation): erase the shared elements, renumber the
surviving elements of `rm`, redo the adjacency around `rm` and `t`, and
logically erase `rm`.  `Surface2D` (not part of this source tree) is
modelled by its predicates; its `collapse` call mutates only
surface-internal facet data, so the surface predicates are carried
unchanged. -/
def ckMesh (m0 : CMesh) (rm t : Nat) : CMesh :=
  let deleted := setInter (m0.NEList.getD rm []) (m0.NEList.getD t [])
  -- erase the elements shared by rm and t
  let m1 := deleted.foldl eraseElement m0
  -- renumber the surviving elements of rm and add them to NEList[t]
  let m2 := (m1.NEList.getD rm []).foldl
    (fun m ee =>
      { m with ENList := renumberElem m.ENList ee rm t,
               NEList := m.NEList.set t (setInsert ee (m.NEList.getD t [])) })
    m1
  -- NNList surgery around rm, then rewrite NNList[t] from the new patch
  let sur := nnSurgery m2.NNList rm t
  let m3 := { m2 with NNList := sur.1.set t (sur.2.filter (fun x => x ≠ rm)) }
  eraseVertex m3 rm

/-- Re-evaluation result used by `coarsen_kernel`
(`dynamic_vertex[v] = coarsen_identify_kernel(v, _L_low, _L_max)`); the
kernel never reads `dynamic_vertex`, so the empty array is passed. -/
def identResult (m : CMesh) (v : Nat) (Llow Lmax : ℚ) : Int :=
  (coarsen_identify_kernel ⟨m, []⟩ v Llow Lmax).1

/-- The final loop of `coarsen_kernel`: re-evaluate every owned current
neighbour of the target vertex. -/
def dvFold (m : CMesh) (Llow Lmax : ℚ) (l : List Nat) (d : List Int) :
    List Int :=
  l.foldl
    (fun d jt =>
      if m.is_owned jt then
        d.set jt (coarsen_identify_kernel ⟨m, d⟩ jt Llow Lmax).1
      else d)
    d

/-- `Coarsen2D::coarsen_kernel`: collapse `rm` onto `t`, then re-evaluate
the local edge collapses. -/
def coarsen_kernel (s : CState) (rm t : Nat) (Llow Lmax : ℚ) : CState :=
  let m4 := ckMesh s.mesh rm t
  let dv1 := s.dynamic_vertex.set rm (-1)
  let dv2 :=
    if m4.is_owned t then
      dv1.set t (coarsen_identify_kernel ⟨m4, dv1⟩ t Llow Lmax).1
    else dv1
  ⟨m4, dvFold m4 Llow Lmax (m4.NNList.getD t []) dv2⟩

/-! Concrete coarsening instances used by witnesses and counterexamples:
two triangles `(0,1,2)` and `(0,2,3)`, with only edge `(0,1)` shorter than
`L_low = 1`. -/

/-- Metric edge lengths of the concrete instance. -/
def edgeLenA (a b : Nat) : ℚ := if min a b = 0 ∧ max a b = 1 then mkRat 1 2 else 1

/-- Concrete two-triangle mesh with all areas healthy. -/
def cmeshBase : CMesh where
  NNList := [[1, 2, 3], [0, 2], [0, 1, 3], [0, 2]]
  NEList := [[0, 1], [0], [0, 1], [1]]
  ENList := [0, 1, 2, 0, 2, 3]
  edgeLen := edgeLenA
  triArea := fun _ _ _ => 1
  is_corner := fun _ => false
  is_collapsible := fun _ _ => true
  surfContains := fun _ => false
  recv_halo := fun _ => false
  is_owned := fun _ => true

/-- The same mesh, but collapsing `0` onto `1` would flatten the surviving
triangle `(1,2,3)` to zero area. -/
def cmeshDegenerate : CMesh :=
  { cmeshBase with
    triArea := fun a b c => if a = 1 ∧ b = 2 ∧ c = 3 then 0 else 1 }

/-! ### Refinement (`Refine2D.h`)

The marking pass of `Refine2D::refine` walks, for every vertex `i`, the
adjacency list `NNList[i]`; an edge is measured only from the endpoint with
the lesser global number and marked when its metric length exceeds
`L_max`, in which case `refine_edge` is called once for it. -/

structure RMesh where
  /-- `Mesh::NNodes` at the start of the pass (`origNNodes`). -/
  NNodes : Nat
  /-- `Mesh::NNList`. -/
  NNList : List (List Nat)
  /-- `Mesh::lnn2gnn` - global vertex numbers. -/
  gnn : Nat → Nat
  /-- `Mesh::calc_edge_length` (outside this source tree); uninterpreted. -/
  len : Nat → Nat → ℚ

/-- The edge-marking pass of `Refine2D::refine` (the `omp for` loop over
`origNNodes`): the list of `(i, otherVertex)` pairs for which
`refine_edge` is invoked, in iteration order.  Each invocation appends
exactly one new midpoint vertex to the thread's buffer. -/
def markPass (m : RMesh) (Lmax : ℚ) : List (Nat × Nat) :=
  (List.range m.NNodes).flatMap fun i =>
    (m.NNList.getD i []).filterMap fun j =>
      if m.gnn i < m.gnn j ∧ Lmax < m.len i j then some (i, j) else none

/-- How many times the undirected edge `{a, b}` is marked for splitting
during the pass. -/
def edgeMarks (m : RMesh) (Lmax : ℚ) (a b : Nat) : Nat :=
  (markPass m Lmax).countP fun p => p = (a, b) ∨ p = (b, a)

/-- Geometric context of `Refine2D::refine_edge`: global numbers,
coordinates, metric tensors (3 independent components in 2D), the metric
edge length `ElementProperty::length` and `std::sqrt` (both outside this
source tree, uninterpreted). -/
structure RGeom where
  gnn : Nat → Nat
  coords : Nat → ℚ × ℚ
  metric : Nat → ℚ × ℚ × ℚ
  lengthM : ℚ × ℚ → ℚ × ℚ → ℚ × ℚ × ℚ → ℚ
  sqrtA : ℚ → ℚ

/-- `Refine2D::refine_edge`: order the endpoints so the lesser-gnn one
comes first, compute the weight
`1/(1 + sqrt(length(x0,x1,m0)/length(x0,x1,m1)))`, and produce the new
vertex position and linearly interpolated metric. -/
def refine_edge (g : RGeom) (n0 n1 : Nat) :
    (Nat × Nat) × (ℚ × ℚ) × (ℚ × ℚ × ℚ) :=
  let p := if g.gnn n0 > g.gnn n1 then (n1, n0) else (n0, n1)
  let x0 := g.coords p.1
  let x1 := g.coords p.2
  let m0 := g.metric p.1
  let m1 := g.metric p.2
  let weight := 1 / (1 + g.sqrtA (g.lengthM x0 x1 m0 / g.lengthM x0 x1 m1))
  (p,
   (x0.1 + weight * (x1.1 - x0.1), x0.2 + weight * (x1.2 - x0.2)),
   (m0.1 + weight * (m1.1 - m0.1),
    m0.2.1 + weight * (m1.2.1 - m0.2.1),
    m0.2.2 + weight * (m1.2.2 - m0.2.2)))

/-- Claim C4, as the specification words it: with `a` the endpoint of
lesser global id and `b` the other one, the new vertex sits at
`x_a + w·(x_b − x_a)` with `w = 1/(1+sqrt(l(a,b,M_a)/l(a,b,M_b)))` and
carries the componentwise interpolated metric `M_a + w·(M_b − M_a)`. -/
def refine_edge_spec (g : RGeom) (n0 n1 : Nat) :
    (Nat × Nat) × (ℚ × ℚ) × (ℚ × ℚ × ℚ) :=
  let a := if g.gnn n0 ≤ g.gnn n1 then n0 else n1
  let b := if g.gnn n0 ≤ g.gnn n1 then n1 else n0
  let xa := g.coords a
  let xb := g.coords b
  let ma := g.metric a
  let mb := g.metric b
  let w := 1 / (1 + g.sqrtA (g.lengthM xa xb ma / g.lengthM xa xb mb))
  ((a, b),
   (xa.1 + w * (xb.1 - xa.1), xa.2 + w * (xb.2 - xa.2)),
   (ma.1 + w * (mb.1 - ma.1),
    ma.2.1 + w * (mb.2.1 - ma.2.1),
    ma.2.2 + w * (mb.2.2 - ma.2.2)))

/-- Concrete refinement instance: a single long edge between two vertices. -/
def rmeshA : RMesh where
  NNodes := 2
  NNList := [[1], [0]]
  gnn := fun i => i
  len := fun _ _ => 2

/-- Concrete geometry for the `refine_edge` witness. -/
def rgeomA : RGeom where
  gnn := fun i => i
  coords := fun i => ((i : ℚ), 0)
  metric := fun i => ((i : ℚ), 1, 2)
  lengthM := fun _ _ m => m.1 + 1
  sqrtA := fun q => q

/-! ### 2D edge swapping (`Swapping.h`, `ndims == 2` branch)

State of one 2D swap pass.  `NNList` is extended to three times the
original degree with `-1` sentinels, the local `NEList` copy is doubled
with `-1` sentinels, `marked` mirrors `marked_edges`, `quality` is the
cached per-element quality vector and `origDeg` is
`originalVertexDegree`. -/

structure SwapMesh where
  NNList : List (List Int)
  NEList : List (List Int)
  ENList : List Int
  marked : List (List Bool)
  quality : List ℚ
  origDeg : List Nat
  deriving DecidableEq

/-- Static context of the swap: halo membership and the composition of
`ElementProperty::lipnikov` with the coordinate/metric lookup (both from
headers outside this source tree, uninterpreted). -/
structure SwapCtx where
  isHalo : Int → Bool
  q3 : Int → Int → Int → ℚ

def SwapMesh.nn (s : SwapMesh) (v : Int) : List Int := s.NNList.getD v.toNat []

def SwapMesh.nel (s : SwapMesh) (v : Int) : List Int := s.NEList.getD v.toNat []

def SwapMesh.deg (s : SwapMesh) (v : Int) : Nat := s.origDeg.getD v.toNat 0

/-- Read `marked_edges[v][idx]`. -/
def SwapMesh.mbit (s : SwapMesh) (v idx : Int) : Bool :=
  (s.marked.getD v.toNat []).getD idx.toNat false

/-- Vertex `k` of element `e` (`Mesh::get_element`). -/
def SwapMesh.elemOf (s : SwapMesh) (e : Int) (k : Nat) : Int :=
  s.ENList.getD (e.toNat * 3 + k) (-1)

def setNNentry (s : SwapMesh) (v : Int) (i : Nat) (x : Int) : SwapMesh :=
  { s with NNList := s.NNList.set v.toNat ((s.NNList.getD v.toNat []).set i x) }

def setNEentry (s : SwapMesh) (v : Int) (i : Nat) (x : Int) : SwapMesh :=
  { s with NEList := s.NEList.set v.toNat ((s.NEList.getD v.toNat []).set i x) }

def setMark (s : SwapMesh) (v : Int) (i : Nat) (b : Bool) : SwapMesh :=
  { s with marked := s.marked.set v.toNat ((s.marked.getD v.toNat []).set i b) }

def setEN (s : SwapMesh) (pos : Nat) (x : Int) : SwapMesh :=
  { s with ENList := s.ENList.set pos x }

def setQ (s : SwapMesh) (e : Int) (q : ℚ) : SwapMesh :=
  { s with quality := s.quality.set e.toNat q }

/-- `Swapping::originalNeighborIndex`: linear scan of the first
`originalVertexDegree[source]` slots; `numeric_limits<index_t>::max()` on
failure. -/
def origNbrIdx (s : SwapMesh) (src tgt : Int) : Int :=
  match (List.range (s.deg src)).find? (fun p => (s.nn src).getD p (-2) == tgt) with
  | some p => (p : Int)
  | none => 2147483647

/-- The double loop over the two half-`NEList`s collecting the elements
shared by the edge - `neigh_elements` in `Swapping::swap`. -/
def neighElements (s : SwapMesh) (i opp : Int) : List Int :=
  (List.range ((s.nel i).length / 2)).flatMap fun k =>
    if (s.nel i).getD k (-1) ≠ -1 then
      (List.range ((s.nel opp).length / 2)).filterMap fun l =>
        if (s.nel i).getD k (-1) = (s.nel opp).getD l (-1) then
          some ((s.nel i).getD k (-1))
        else none
    else []

/-- Everything the commit branch of the 2D decision algorithm needs. -/
structure FlipPlan where
  opposite : Int
  eid0 : Int
  eid1 : Int
  latn : Int
  latm : Int
  /-- `n[(n_off+2)%3]` - `n_swap[2]`, one endpoint of the flipped edge. -/
  third : Int
  /-- `n[(n_off+1)%3]` - `m_swap[1]`, the other endpoint. -/
  fourth : Int
  idx_in_n : Int
  idx_in_m : Int
  idx_of_n : Int
  idx_of_m : Int
  mn_n : Int
  mx_n : Int
  idx_opp_n : Int
  mn_m : Int
  mx_m : Int
  idx_opp_m : Int
  worst : ℚ
  q0 : ℚ
  q1 : ℚ
  deriving DecidableEq, Inhabited

/-- Outcome of processing one marked edge: leave the mark (the stale-view
and lateral-check `continue`s), clear it (halo opposite, broken adjacency,
or a rejected quality test), or commit the flip. -/
inductive EdgeOutcome where
  | skip : EdgeOutcome
  | clear : EdgeOutcome
  | commit : FlipPlan → EdgeOutcome
  deriving DecidableEq

/-- The `i > lateral` decision block: bail out when the adjacency is stale
or when the lateral edge `(lateral, i)` or the opposite-lateral edge is
still marked.  Returns `(idx_in, min_opp, max_opp, idx_opp)`, all `-1`
when `i < lateral` (the C++ locals keep their initialisers). -/
def sideCheckA (s : SwapMesh) (i : Nat) (opposite lat : Int) :
    Option (Int × Int × Int × Int) :=
  if (i : Int) > lat then
    let idx_in := origNbrIdx s lat (i : Int)
    if idx_in ≥ (s.deg lat : Int) then none
    else if s.mbit lat idx_in then none
    else
      let mn := if opposite < lat then opposite else lat
      let mx := if opposite < lat then lat else opposite
      let idx_opp := origNbrIdx s mn mx
      if idx_opp ≥ (s.deg mn : Int) then none
      else if s.mbit mn idx_opp then none
      else some (idx_in, mn, mx, idx_opp)
  else some (-1, -1, -1, -1)

/-- The `n_off`/`m_off` scan: index of the first of the three element
nodes that is neither endpoint of the edge, `-1` when there is none. -/
def offsetOf (s : SwapMesh) (e i opp : Int) : Int :=
  match (List.range 3).find?
      (fun k => s.elemOf e k ≠ i && s.elemOf e k ≠ opp) with
  | some k => (k : Int)
  | none => -1

/-- The `idx_of` catch-up block (`if(idx_in == -1){...}`): when the first
decision block did not run, look the lateral up in `i`\'s own list and bail
out when the adjacency is stale; otherwise `idx_of` keeps its initialiser
`-1`. -/
def catchUp (s : SwapMesh) (i : Nat) (lat idx_in : Int) : Option Int :=
  if idx_in = -1 then
    let idx_of := origNbrIdx s (i : Int) lat
    if idx_of ≥ (s.deg (i : Int) : Int) then none else some idx_of
  else some (-1)

/-- The `idx_opp` catch-up block (`if(idx_opp == -1){...}`): order the
opposite-lateral pair and look the greater up in the lesser\'s list; no
mark is consulted here. -/
def oppCatchUp (s : SwapMesh) (opposite lat mn0 mx0 idx_opp0 : Int) :
    Option (Int × Int × Int) :=
  if idx_opp0 = -1 then
    let mn := if opposite < lat then opposite else lat
    let mx := if opposite < lat then lat else opposite
    let io := origNbrIdx s mn mx
    if io ≥ (s.deg mn : Int) then none else some (mn, mx, io)
  else some (mn0, mx0, idx_opp0)

/-- The decision blocks and the quality acceptance for the marked edge,
after the two sharing elements and the lateral vertices have been
identified (`Swapping::swap`, 2D branch, decision algorithm). -/
def decideLateral (c : SwapCtx) (s : SwapMesh) (i : Nat)
    (opposite eid0 eid1 latn latm third fourth : Int) : EdgeOutcome :=
  match sideCheckA s i opposite latn with
  | none => .skip
  | some (idx_in_n, mn_n0, mx_n0, idx_opp_n0) =>
    match sideCheckA s i opposite latm with
    | none => .skip
    | some (idx_in_m, mn_m0, mx_m0, idx_opp_m0) =>
      match catchUp s i latn idx_in_n with
      | none => .skip
      | some idx_of_n =>
        match catchUp s i latm idx_in_m with
        | none => .skip
        | some idx_of_m =>
          match oppCatchUp s opposite latn mn_n0 mx_n0 idx_opp_n0 with
          | none => .skip
          | some (mn_n, mx_n, idx_opp_n) =>
            match oppCatchUp s opposite latm mn_m0 mx_m0 idx_opp_m0 with
            | none => .skip
            | some (mn_m, mx_m, idx_opp_m) =>
              let worst := min (s.quality.getD eid0.toNat 0)
                (s.quality.getD eid1.toNat 0)
              let q0 := c.q3 latn latm third
              let q1 := c.q3 latn fourth latm
              if min q0 q1 > worst then
                .commit
                  { opposite := opposite, eid0 := eid0, eid1 := eid1,
                    latn := latn, latm := latm,
                    third := third, fourth := fourth,
                    idx_in_n := idx_in_n, idx_in_m := idx_in_m,
                    idx_of_n := idx_of_n, idx_of_m := idx_of_m,
                    mn_n := mn_n, mx_n := mx_n, idx_opp_n := idx_opp_n,
                    mn_m := mn_m, mx_m := mx_m, idx_opp_m := idx_opp_m,
                    worst := worst, q0 := q0, q1 := q1 }
              else .clear

/-- The decision algorithm for the marked edge `(i, NNList[i][it])` -
`Swapping::swap`, 2D branch, loop body. -/
def decideEdge (c : SwapCtx) (s : SwapMesh) (i it : Nat) : EdgeOutcome :=
  if (s.marked.getD i []).getD it false = false then .skip
  else
    let opposite := (s.NNList.getD i []).getD it (-1)
    if c.isHalo opposite then .clear
    else
      let neigh := neighElements s (i : Int) opposite
      if neigh.length ≠ 2 then .clear
      else
        let eid0 := neigh.headD (-1)
        let eid1 := neigh.getLastD (-1)
        let n := fun k => s.elemOf eid0 k
        let m := fun k => s.elemOf eid1 k
        let n_off : Int := offsetOf s eid0 (i : Int) opposite
        let m_off : Int := offsetOf s eid1 (i : Int) opposite
        if n_off < 0 ∨ m_off < 0 ∨
            n ((n_off.toNat + 2) % 3) ≠ m ((m_off.toNat + 1) % 3) ∨
            n ((n_off.toNat + 1) % 3) ≠ m ((m_off.toNat + 2) % 3) then .skip
        else
          decideLateral c s i ((s.NNList.getD i []).getD it (-1)) eid0 eid1
            (n n_off.toNat) (m m_off.toNat)
            (n ((n_off.toNat + 2) % 3)) (n ((n_off.toNat + 1) % 3))

/-- Replace element adjacency in the doubled local `NEList`: find `oldE`
in the first half of vertex `v`'s list and write `newE` into the mirror
slot of the second half. -/
def neReplaceAt (s : SwapMesh) (v oldE newE : Int) : SwapMesh :=
  let l := s.nel v
  let half := l.length / 2
  match (List.range half).find? (fun k => l.getD k (-1) == oldE) with
  | some k => setNEentry s v (k + half) newE
  | none => s

/-- Erase `oldE` from the first half of vertex `v`'s doubled `NEList`. -/
def neEraseAt (s : SwapMesh) (v oldE : Int) : SwapMesh :=
  let l := s.nel v
  let half := l.length / 2
  match (List.range half).find? (fun k => l.getD k (-1) == oldE) with
  | some k => setNEentry s v k (-1)
  | none => s

/-- The committed flip: quality-cache update, `NNList` surgery, `NEList`
surgery, `ENList` rewrite, re-marking of the four lateral edges, and the
final clearing of the processed mark (`Swapping::swap`, lines following
the quality acceptance). -/
def commitQ (s0 : SwapMesh) (p : FlipPlan) : SwapMesh :=
  setQ (setQ s0 p.eid0 p.q0) p.eid1 p.q1

/-- Remove `opposite` from `i`'s list and `i` from `opposite`'s list. -/
def commitDrop (s2 : SwapMesh) (i it : Nat) (p : FlipPlan) : SwapMesh :=
  let s3 := setNNentry s2 (i : Int) it (-1)
  setNNentry s3 p.opposite (origNbrIdx s3 p.opposite (i : Int)).toNat (-1)

/-- Add `other` into the extended region of vertex `lat`'s padded
neighbour list. -/
def commitAddLat (s4 : SwapMesh) (i : Nat) (lat other idx_in : Int) :
    SwapMesh :=
  let idx : Int := if idx_in = -1 then origNbrIdx s4 lat (i : Int) else idx_in
  let pos0 : Int := (s4.deg lat : Int) + idx
  let pos : Int := if (s4.nn lat).getD pos0.toNat (-2) ≠ -1 then
    pos0 + (s4.deg lat : Int) else pos0
  setNNentry s4 lat pos.toNat other

/-- Node-element list updates of the commit. -/
def commitNE (s6 : SwapMesh) (p : FlipPlan) : SwapMesh :=
  neEraseAt (neEraseAt (neReplaceAt (neReplaceAt s6 p.latn p.eid0 p.eid1)
    p.latm p.eid1 p.eid0) p.third p.eid1) p.fourth p.eid0

/-- Element-node list rewrite of the commit. -/
def commitEN (s10 : SwapMesh) (p : FlipPlan) : SwapMesh :=
  setEN (setEN (setEN (setEN (setEN (setEN s10
    (p.eid0.toNat * 3) p.latn)
    (p.eid0.toNat * 3 + 1) p.latm)
    (p.eid0.toNat * 3 + 2) p.third)
    (p.eid1.toNat * 3) p.latn)
    (p.eid1.toNat * 3 + 1) p.fourth)
    (p.eid1.toNat * 3 + 2) p.latm

/-- Re-mark the four lateral edges and clear the processed mark. -/
def commitMarks (s16 : SwapMesh) (i it : Nat) (p : FlipPlan) : SwapMesh :=
  let s17 := if (i : Int) < p.latn then setMark s16 (i : Int) p.idx_of_n.toNat true
    else setMark s16 p.latn p.idx_in_n.toNat true
  let s18 := if (i : Int) < p.latm then setMark s17 (i : Int) p.idx_of_m.toNat true
    else setMark s17 p.latm p.idx_in_m.toNat true
  let s19 := setMark s18 p.mn_n p.idx_opp_n.toNat true
  let s20 := setMark s19 p.mn_m p.idx_opp_m.toNat true
  setMark s20 (i : Int) it false

/-- The committed flip: quality-cache update, `NNList` surgery, `NEList`
replace/erase, `ENList` rewrite and the re-marking, in source order. -/
def applyCommit (s0 : SwapMesh) (i it : Nat) (p : FlipPlan) : SwapMesh :=
  commitMarks (commitEN (commitNE (commitAddLat (commitAddLat
    (commitDrop (commitQ s0 p) i it p) i p.latn p.latm p.idx_in_n)
    i p.latm p.latn p.idx_in_m) p) p) i it p

/-- The record kept for every committed flip: the state at decision time
and the data of the flip. -/
structure FlipCommit where
  pre : SwapMesh
  i : Nat
  it : Nat
  plan : FlipPlan
  deriving DecidableEq

def clearMark (s : SwapMesh) (i it : Nat) : SwapMesh :=
  setMark s (i : Int) it false

/-- Process one edge slot of vertex `i`, returning the new state and the
commit log of this step. -/
def processEdge (c : SwapCtx) (s : SwapMesh) (i it : Nat) :
    SwapMesh × List FlipCommit :=
  match decideEdge c s i it with
  | .skip => (s, [])
  | .clear => (clearMark s i it, [])
  | .commit p => (applyCommit s i it p, [⟨s, i, it, p⟩])

/-- Clear the whole mark vector of a halo vertex
(`fill(marked_edges[i].begin(), marked_edges[i].end(), 0)`). -/
def clearAllMarks (s : SwapMesh) (i : Nat) : SwapMesh :=
  { s with marked := s.marked.set i ((s.marked.getD i []).map fun _ => false) }

/-- Left fold of a state-and-log step over a list, accumulating the log. -/
def foldLog {α : Type} (step : SwapMesh → α → SwapMesh × List FlipCommit)
    (l : List α) (init : SwapMesh × List FlipCommit) :
    SwapMesh × List FlipCommit :=
  l.foldl (fun acc x => ((step acc.1 x).1, acc.2 ++ (step acc.1 x).2)) init

/-- Process vertex `i` of the pass: halo vertices only get their marks
cleared; otherwise the first `originalVertexDegree[i]` edge slots are
processed in order. -/
def processVertex (c : SwapCtx) (s : SwapMesh) (i : Nat) :
    SwapMesh × List FlipCommit :=
  if c.isHalo (i : Int) then (clearAllMarks s i, [])
  else foldLog (fun s2 it => processEdge c s2 i it)
    (List.range (s.origDeg.getD i 0)) (s, [])

/-- One full pass of the 2D swap loop (the first `omp for` of the
`while(n_marked_edges > 0)` loop), in the canonical sequential schedule. -/
def swapPass (c : SwapCtx) (s : SwapMesh) : SwapMesh × List FlipCommit :=
  foldLog (processVertex c) (List.range s.NNList.length) (s, [])

/-- Validity of the doubled node-element lists: every entry is the `-1`
sentinel or an element id with a cached quality. -/
def NEok (qlen : Nat) (ne : List (List Int)) : Prop :=
  ∀ l ∈ ne, ∀ e ∈ l, e = -1 ∨ (0 ≤ e ∧ e.toNat < qlen)

def NEValid (s : SwapMesh) : Prop := NEok s.quality.length s.NEList

/-- Lower bound on every cached element quality. -/
def qLB (m : ℚ) (s : SwapMesh) : Prop := ∀ q ∈ s.quality, m ≤ q


/-- An edge carries a mark if either directional slot
`marked_edges[a][originalNeighborIndex(a,b)]` is set. -/
def edgeMarked (s : SwapMesh) (a b : Int) : Bool :=
  s.mbit a (origNbrIdx s a b) || s.mbit b (origNbrIdx s b a)

/-- All four lateral edges of a committed flip were unmarked in the
decision-time state recorded with the commit. -/
def lateralsUnmarked (e : FlipCommit) : Bool :=
  !(edgeMarked e.pre (e.i : Int) e.plan.latn) &&
  !(edgeMarked e.pre (e.i : Int) e.plan.latm) &&
  !(edgeMarked e.pre e.plan.opposite e.plan.latn) &&
  !(edgeMarked e.pre e.plan.opposite e.plan.latm)

/-- A concrete four-vertex, two-triangle mesh: triangles (0,1,2) and
(3,1,0) share the edge {0,1}; vertices 2 and 3 are the lateral vertices.
The shared edge and the edges (0,2), (0,3), (1,2), (1,3) are marked
(slot conventions as in the padded `marked_edges` vectors). -/
def swapMeshB : SwapMesh where
  NNList := [[1, 2, 3, -1, -1, -1, -1, -1, -1], [0, 2, 3, -1, -1, -1, -1, -1, -1],
    [0, 1, -1, -1, -1, -1], [0, 1, -1, -1, -1, -1]]
  NEList := [[0, 1, -1, -1], [0, 1, -1, -1], [0, -1], [1, -1]]
  ENList := [0, 1, 2, 3, 1, 0]
  marked := [[true, true, true], [false, true, true], [false, false], [false, false]]
  quality := [0, 0]
  origDeg := [3, 3, 2, 2]

/-- Context for `swapMeshB`: vertex 3 is in the halo, and the flipped
configuration scores strictly better than the cached qualities. -/
def swapCtxB : SwapCtx where
  isHalo := fun v => v == 3
  q3 := fun a b c =>
    if (a = 2 ∧ b = 3 ∧ c = 1) ∨ (a = 2 ∧ b = 0 ∧ c = 3) then 1 else 0

/-- The first commit recorded by the pass over `swapMeshB`. -/
def commitB : FlipCommit :=
  ((swapPass swapCtxB swapMeshB).2).headD ⟨swapMeshB, 0, 0, default⟩


/-- A relabelling of `swapMeshB`: triangles (2,3,0) and (1,3,2) share the
edge {2,3}, whose lateral vertices 0 and 1 are numbered below the
processing vertex 2, so the decision-time lateral-mark checks are
exercised. -/
def swapMeshC : SwapMesh where
  NNList := [[2, 3, -1, -1, -1, -1], [2, 3, -1, -1, -1, -1],
    [3, 0, 1, -1, -1, -1, -1, -1, -1], [2, 0, 1, -1, -1, -1, -1, -1, -1]]
  NEList := [[0, -1], [1, -1], [0, 1, -1, -1], [0, 1, -1, -1]]
  ENList := [2, 3, 0, 1, 3, 2]
  marked := [[false, false], [false, false], [true, true, true], [false, true, true]]
  quality := [0, 0]
  origDeg := [2, 2, 3, 3]

/-- Context for `swapMeshC`: no halo, and the flipped configuration
scores strictly better than the cached qualities. -/
def swapCtxC : SwapCtx where
  isHalo := fun _ => false
  q3 := fun a b c =>
    if (a = 0 ∧ b = 1 ∧ c = 3) ∨ (a = 0 ∧ b = 2 ∧ c = 1) then 1 else 0

/-- The first commit recorded by the pass over `swapMeshC`. -/
def commitC : FlipCommit :=
  ((swapPass swapCtxC swapMeshC).2).headD ⟨swapMeshC, 0, 0, default⟩


/-! ## 3D swapping (`Swapping.h`, 3D branch)

The 3D pass keeps a flattened element-node list (4 nodes per
tetrahedron), a per-element quality cache that only grows
(`quality.push_back`), and kills elements by `Mesh::erase_element`.
`ElementProperty::lipnikov` on coordinates and metrics from outside
`src/` is abstracted into an uninterpreted quality oracle
`q4 : Int → Int → Int → Int → ℚ` on the four node ids. -/

structure Mesh3 where
  ENList : List Int
  quality : List ℚ
  deriving DecidableEq

/-- An element is alive iff its first node is nonnegative
(`const int *n = get_element(eid); if(n[0] < 0) continue;`). -/
def Mesh3.live (m : Mesh3) (e : Nat) : Bool :=
  decide (0 ≤ m.ENList.getD (4 * e) (-1))

/-- Modelled from the spec: `Mesh::erase_element` (outside `src/`)
logically deletes an element; the node slots become the sentinel `-1`
and the quality cache keeps its stale entry. -/
def erase3 (m : Mesh3) (e : Nat) : Mesh3 :=
  { m with ENList := (((m.ENList.set (4 * e) (-1)).set (4 * e + 1) (-1)).set
      (4 * e + 2) (-1)).set (4 * e + 3) (-1) }

/-- Modelled from the spec: `Mesh::append_element` plus
`quality.push_back` appends one tetrahedron and its cached quality. -/
def append3 (m : Mesh3) (nodes : List Int) (q : ℚ) : Mesh3 :=
  { ENList := m.ENList ++ nodes, quality := m.quality ++ [q] }

/-- Element-node lists and the quality cache stay in step: four node
slots per cached quality. -/
def alignedM3 (m : Mesh3) : Prop := m.ENList.length = 4 * m.quality.length

/-- Lower bound on the cached quality of every live element. -/
def liveLB (b : ℚ) (m : Mesh3) : Prop :=
  ∀ e, m.live e = true → b ≤ m.quality.getD e 0

/-- The 3D face-to-edge (2-to-3) swap on the hull `0,1,2,3,4` of two
adjacent tetrahedra `eid0`, `eid1`: score the three candidate elements
`0143`, `1243`, `2043` and, if their worst beats the worst of the pair,
erase the pair and append the three. -/
def faceEdgeSwap (q4 : Int → Int → Int → Int → ℚ) (m : Mesh3)
    (eid0 eid1 : Nat) (hull : List Int) : Mesh3 :=
  let h := fun k => hull.getD k (-1)
  let q0 := q4 (h 0) (h 1) (h 4) (h 3)
  let q1 := q4 (h 1) (h 2) (h 4) (h 3)
  let q2 := q4 (h 2) (h 0) (h 4) (h 3)
  if min (m.quality.getD eid0 0) (m.quality.getD eid1 0) <
      min q0 (min q1 q2) then
    append3 (append3 (append3 (erase3 (erase3 m eid0) eid1)
      [h 0, h 1, h 4, h 3] q0) [h 1, h 2, h 4, h 3] q1) [h 2, h 0, h 4, h 3] q2
  else m

/-- The predefined edge-to-face retriangulations of a `k`-element cavity
around an interior edge, on the sorted ring `constrained_edges` (`ce`,
one vertex every two entries) and the edge endpoints `nk`, `nl`;
transcribed from the `nelements==3/4/5/6` template blocks. Any other
cavity size has no template (`else continue`). -/
def edgeFaceOptions (ce : List Int) (nk nl : Int) (k : Nat) :
    List (List Int) :=
  let g := fun j => ce.getD j (-1)
  if k = 3 then
    [[g 0, g 2, g 4, nl,
      g 2, g 0, g 4, nk]]
  else if k = 4 then
    [[g 0, g 2, g 6, nl,  g 2, g 4, g 6, nl,
      g 2, g 0, g 6, nk,  g 4, g 2, g 6, nk],
     [g 0, g 2, g 4, nl,  g 0, g 4, g 6, nl,
      g 0, g 4, g 2, nk,  g 0, g 6, g 4, nk]]
  else if k = 5 then
    [[g 0, g 2, g 4, nl,  g 4, g 6, g 0, nl,  g 6, g 8, g 0, nl,
      g 2, g 0, g 4, nk,  g 6, g 4, g 0, nk,  g 8, g 6, g 0, nk],
     [g 0, g 2, g 8, nl,  g 2, g 6, g 8, nl,  g 2, g 4, g 6, nl,
      g 0, g 8, g 2, nk,  g 2, g 8, g 6, nk,  g 2, g 6, g 4, nk],
     [g 4, g 0, g 2, nl,  g 4, g 8, g 0, nl,  g 4, g 6, g 8, nl,
      g 4, g 2, g 0, nk,  g 4, g 0, g 8, nk,  g 4, g 8, g 6, nk],
     [g 6, g 2, g 4, nl,  g 6, g 0, g 2, nl,  g 6, g 8, g 0, nl,
      g 6, g 4, g 2, nk,  g 6, g 2, g 0, nk,  g 6, g 0, g 8, nk],
     [g 8, g 0, g 2, nl,  g 8, g 2, g 4, nl,  g 8, g 4, g 6, nl,
      g 8, g 2, g 0, nk,  g 8, g 4, g 2, nk,  g 8, g 6, g 4, nk]]
  else if k = 6 then
    [[g 0, g 2, g 10, nl,  g 4, g 6, g 8, nl,
      g 2, g 4, g 10, nl,  g 10, g 4, g 8, nl,
      g 2, g 0, g 10, nk,  g 6, g 4, g 8, nk,
      g 4, g 2, g 10, nk,  g 4, g 10, g 8, nk]]
  else []

/-- Swap the first two node indices of every tetrahedron of a flattened
candidate (the orientation-correction `invert` step). -/
def invertTets : List Int → List Int
  | a :: b :: c :: d :: rest => b :: a :: c :: d :: invertTets rest
  | l => l

/-- Quality of the `j`-th tetrahedron of a flattened candidate. -/
def tetQual (q4 : Int → Int → Int → Int → ℚ) (opt : List Int) (j : Nat) : ℚ :=
  q4 (opt.getD (4 * j) (-1)) (opt.getD (4 * j + 1) (-1))
    (opt.getD (4 * j + 2) (-1)) (opt.getD (4 * j + 3) (-1))

/-- `newq[option]`: the qualities of the `nel` tetrahedra of a candidate. -/
def optScores (q4 : Int → Int → Int → Int → ℚ) (nel : Nat)
    (opt : List Int) : List ℚ :=
  (List.range nel).map (tetQual q4 opt)

/-- `new_min_quality[option]`: seeded with `newq[option][0]` and folded
with `min` over the whole list, as in the source loop. -/
def minOfScores (l : List ℚ) : ℚ :=
  l.foldl (fun a q => min q a) (l.getD 0 0)

/-- `best_option`: linear scan from index 1, keeping the first strict
maximum. -/
def bestOption (scores : List ℚ) : Nat :=
  ((List.range scores.length).drop 1).foldl
    (fun best o => if scores.getD o 0 > scores.getD best 0 then o else best) 0

/-- The two-round `invert` loop: score every candidate; if the best
minimum is negative, swap node indices 0 and 1 of every tetrahedron and
re-score; if the best is negative again, swap them back (keeping the
stale scores) and fall through. Returns the candidate lists, the
per-candidate score lists and the index of the best candidate. -/
def edgeFaceSelect (q4 : Int → Int → Int → Int → ℚ) (nel : Nat)
    (opts : List (List Int)) :
    List (List Int) × List (List ℚ) × Nat :=
  let newq1 := opts.map (optScores q4 nel)
  let scores1 := newq1.map minOfScores
  let best1 := bestOption scores1
  if scores1.getD best1 0 < 0 then
    let opts2 := opts.map invertTets
    let newq2 := opts2.map (optScores q4 nel)
    let scores2 := newq2.map minOfScores
    let best2 := bestOption scores2
    if scores2.getD best2 0 < 0 then
      (opts2.map invertTets, newq2, best2)
    else (opts2, newq2, best2)
  else (opts, newq1, best1)

/-- `min_quality`: seeded with `quality[eid0]` and folded with `min`
over the cavity elements. -/
def cavityMinQ (m : Mesh3) (eid0 : Nat) (cavity : List Nat) : ℚ :=
  cavity.foldl (fun a e => min (m.quality.getD e 0) a) (m.quality.getD eid0 0)

/-- Append the `nel` tetrahedra of the winning candidate together with
their cached qualities. -/
def appendTets (m : Mesh3) (opt : List Int) (qs : List ℚ) (nel : Nat) :
    Mesh3 :=
  (List.range nel).foldl (fun acc j =>
    append3 acc [opt.getD (4 * j) (-1), opt.getD (4 * j + 1) (-1),
      opt.getD (4 * j + 2) (-1), opt.getD (4 * j + 3) (-1)] (qs.getD j 0)) m

/-- One edge-to-face swap attempt on the cavity of elements around the
edge `(n[k], n[l])` of element `eid0`: build the templates, run the
invert loop, and commit the best candidate only if it strictly beats
`min_quality`. -/
def edgeFaceCommit (q4 : Int → Int → Int → Int → ℚ) (m : Mesh3)
    (eid0 : Nat) (cavity : List Nat) (ce : List Int) (nk nl : Int) :
    Mesh3 :=
  let minQ := cavityMinQ m eid0 cavity
  let opts := edgeFaceOptions ce nk nl cavity.length
  if opts.isEmpty then m
  else
    let nel := (opts.getD 0 []).length / 4
    let r := edgeFaceSelect q4 nel opts
    let scores := r.2.1.map minOfScores
    if scores.getD r.2.2 0 ≤ minQ then m
    else appendTets (cavity.foldl erase3 m) (r.1.getD r.2.2 [])
      (r.2.1.getD r.2.2 []) nel


/-- Constant quality oracles and small concrete 3D meshes for witnesses. -/
def q4one : Int → Int → Int → Int → ℚ := fun _ _ _ _ => 1

def q4neg : Int → Int → Int → Int → ℚ := fun _ _ _ _ => -1

def q4zero : Int → Int → Int → Int → ℚ := fun _ _ _ _ => 0

/-- Two live tetrahedra sharing the face (0,2,3), hull `0,1,2,3,4`. -/
def mesh3A : Mesh3 := { ENList := [0, 1, 2, 3, 0, 2, 4, 3], quality := [0, 0] }

/-- Three live tetrahedra around the interior edge (1,2), ring `5,6,7`. -/
def mesh3B : Mesh3 :=
  { ENList := [1, 2, 5, 6, 1, 2, 6, 7, 1, 2, 7, 5], quality := [0, 0, 0] }

/-- The sorted constrained-edge ring of `mesh3B` (one ring vertex every
two entries, closed: first = last). -/
def ceB : List Int := [5, 5, 6, 6, 7, 7]


/-- Quality oracle that is negative exactly when the first two nodes are
in increasing order: candidates score negative, their inversions score
positive. -/
def q4flip : Int → Int → Int → Int → ℚ :=
  fun a b _ _ => if a < b then -1 else 1

/-! ## Theorems -/

/-! ### List plumbing lemmas -/

theorem getD_set_self (l : List Int) (i : Nat) (h : i < l.length) (x d : Int) :
    (l.set i x).getD i d = x := by
  simp [List.getD_eq_getElem?_getD, List.getElem?_set_self, h]

theorem getD_set_other (l : List Int) (i j : Nat) (hij : i ≠ j) (x d : Int) :
    (l.set i x).getD j d = l.getD j d := by
  simp [List.getD_eq_getElem?_getD, List.getElem?_set_ne, hij]

/-! ### The identification kernel is observational -/

theorem identLoop_snd (s : CState) (rm : Nat) (Lmax : ℚ) :
    ∀ (l : List Nat) (b : Bool) (tv : Int), (identLoop s rm Lmax l b tv).2 = s := by
  intro l
  induction l with
  | nil => intro b tv; simp [identLoop]
  | cons t rest ih =>
    intro b tv
    simp only [identLoop]
    split
    · exact ih true (t : Int)
    · rfl

theorem identLoop_fst_dv (m : CMesh) (d1 d2 : List Int) (rm : Nat) (Lmax : ℚ) :
    ∀ (l : List Nat) (b : Bool) (tv : Int),
      (identLoop ⟨m, d1⟩ rm Lmax l b tv).1 = (identLoop ⟨m, d2⟩ rm Lmax l b tv).1 := by
  intro l
  induction l with
  | nil => intro b tv; rfl
  | cons t rest ih =>
    intro b tv
    simp only [identLoop]
    split
    · exact ih true (t : Int)
    · rfl

theorem identify_snd (s : CState) (rm : Nat) (Llow Lmax : ℚ) :
    (coarsen_identify_kernel s rm Llow Lmax).2 = s := by
  unfold coarsen_identify_kernel
  split
  · rfl
  · split
    · rfl
    · split
      · rfl
      · exact identLoop_snd s rm Lmax _ false (-1)

theorem identify_fst_dv (m : CMesh) (d : List Int) (rm : Nat) (Llow Lmax : ℚ) :
    (coarsen_identify_kernel ⟨m, d⟩ rm Llow Lmax).1 = identResult m rm Llow Lmax := by
  unfold identResult coarsen_identify_kernel
  split
  · rfl
  · split
    · rfl
    · split
      · rfl
      · exact identLoop_fst_dv m d [] rm Lmax _ false (-1)

/-- Claim C10: `coarsen_identify_kernel` is purely observational.  The
state-threaded translation returns the operator state (mesh adjacency,
element table, geometric and surface callables, and the `dynamic_vertex`
array) unchanged, and its result is a function of the mesh state alone -
it does not depend on the `dynamic_vertex` array. -/
theorem claim_C10_identify_observational :
    ∀ (s : CState) (rm : Nat) (Llow Lmax : ℚ),
      (coarsen_identify_kernel s rm Llow Lmax).2 = s ∧
      ∀ d : List Int,
        (coarsen_identify_kernel ⟨s.mesh, d⟩ rm Llow Lmax).1 =
          (coarsen_identify_kernel s rm Llow Lmax).1 := by
  intro s rm Llow Lmax
  refine ⟨identify_snd s rm Llow Lmax, fun d => ?_⟩
  have h1 := identify_fst_dv s.mesh d rm Llow Lmax
  have h2 := identify_fst_dv s.mesh s.dynamic_vertex rm Llow Lmax
  exact h1.trans h2.symm

/-! ### The identification kernel returns the shortest passing candidate -/

theorem identLoop_fst_true (s : CState) (rm : Nat) (Lmax : ℚ) :
    ∀ (l : List Nat) (tv : Int),
      (identLoop s rm Lmax l true tv).1 =
        match l.find? (fun t => !checkReject s.mesh rm t Lmax) with
        | some t => (t : Int)
        | none => -2 := by
  intro l
  induction l with
  | nil => intro tv; rfl
  | cons t rest ih =>
    intro tv
    simp only [identLoop, List.find?]
    cases h : checkReject s.mesh rm t Lmax with
    | true => simpa [h] using ih (t : Int)
    | false => simp [h]

theorem identLoop_fst (s : CState) (rm : Nat) (Lmax : ℚ) (l : List Nat) :
    (identLoop s rm Lmax l false (-1)).1 =
      match l.find? (fun t => !checkReject s.mesh rm t Lmax) with
      | some t => (t : Int)
      | none => if l.isEmpty then -1 else -2 := by
  cases l with
  | nil => rfl
  | cons t rest =>
    simp only [identLoop, List.find?]
    cases h : checkReject s.mesh rm t Lmax with
    | true => simpa [h] using identLoop_fst_true s rm Lmax rest (t : Int)
    | false => simp [h]

/-- The identification kernel, for an alive non-corner owned vertex,
returns the first candidate (in multimap order) passing the rejection
tests, `-1` when there is no candidate, and `-2` when all are rejected. -/
theorem identify_characterization (s : CState) (rm : Nat) (Llow Lmax : ℚ)
    (h1 : (s.mesh.NNList.getD rm []).isEmpty = false)
    (h2 : s.mesh.is_corner rm = false)
    (h3 : s.mesh.is_owned rm = true) :
    (coarsen_identify_kernel s rm Llow Lmax).1 =
      match (identSorted s.mesh rm Llow).find?
          (fun t => !checkReject s.mesh rm t Lmax) with
      | some t => (t : Int)
      | none => if (identSorted s.mesh rm Llow).isEmpty then -1 else -2 := by
  unfold coarsen_identify_kernel
  rw [h1, h2, h3]
  simp only [Bool.false_eq_true, if_false, Bool.not_true]
  exact identLoop_fst s rm Lmax _

/-- Claim C3: for a vertex that is alive, not a corner and owned, the
identification kernel walks the qualifying candidates (neighbours not on
the receive halo, declared collapsible by the surface model, at metric
length below `L_low`) in ascending metric-length order and returns the
first one that passes the area-ratio and new-edge-length tests; the
candidate order is a sorted permutation of the qualifying neighbours. -/
theorem claim_C3_identify_shortest_passing :
    ∀ (s : CState) (rm : Nat) (Llow Lmax : ℚ),
      (s.mesh.NNList.getD rm []).isEmpty = false →
      s.mesh.is_corner rm = false →
      s.mesh.is_owned rm = true →
      ((coarsen_identify_kernel s rm Llow Lmax).1 =
        match (identSorted s.mesh rm Llow).find?
            (fun t => !checkReject s.mesh rm t Lmax) with
        | some t => (t : Int)
        | none => if (identSorted s.mesh rm Llow).isEmpty then -1 else -2) ∧
      (identSorted s.mesh rm Llow).Perm (identCandidates s.mesh rm Llow) ∧
      (identSorted s.mesh rm Llow).Sorted
        (fun a b => s.mesh.edgeLen rm a ≤ s.mesh.edgeLen rm b) := by
  intro s rm Llow Lmax h1 h2 h3
  refine ⟨identify_characterization s rm Llow Lmax h1 h2 h3,
    List.perm_insertionSort _ _, ?_⟩
  haveI : IsTotal Nat (fun a b => s.mesh.edgeLen rm a ≤ s.mesh.edgeLen rm b) :=
    ⟨fun a b => le_total _ _⟩
  haveI : IsTrans Nat (fun a b => s.mesh.edgeLen rm a ≤ s.mesh.edgeLen rm b) :=
    ⟨fun _ _ _ hab hbc => le_trans hab hbc⟩
  exact List.sorted_insertionSort _ _

/-- Witness for C3 at the concrete two-triangle mesh: the kernel collapses
vertex 0 along the single short edge onto vertex 1. -/
theorem claim_C3_witness :
    (coarsen_identify_kernel ⟨cmeshBase, []⟩ 0 1 2).1 =
      (match (identSorted cmeshBase 0 1).find?
          (fun t => !checkReject cmeshBase 0 t 2) with
      | some t => (t : Int)
      | none => if (identSorted cmeshBase 0 1).isEmpty then -1 else -2) ∧
    (coarsen_identify_kernel ⟨cmeshBase, []⟩ 0 1 2).1 = 1 :=
  ⟨(claim_C3_identify_shortest_passing ⟨cmeshBase, []⟩ 0 1 2 (by decide)
      (by decide) (by decide)).1, by decide⟩

/-! ### Return values of the identification kernel (claim C6) -/

/-- Counterexample to claim C6 as stated: on the concrete mesh where the
only candidate edge `(0,1)` is rejected by the area test, the kernel - and
therefore `dynamic_vertex[0]`, which `coarsen` sets to the kernel result -
records the sentinel `-2`, not `-1`. -/
theorem claim_C6_counterexample :
    identSorted cmeshDegenerate 0 1 = [1] ∧
    checkReject cmeshDegenerate 0 1 2 = true ∧
    (coarsen_identify_kernel ⟨cmeshDegenerate, []⟩ 0 1 2).1 = -2 ∧
    ((-2 : Int) ≠ -1) := by
  refine ⟨by decide, by decide, by decide, by decide⟩

/-- Claim C6, amended: when every candidate edge of an alive, non-corner,
owned vertex is rejected, the kernel records `-2` (needs re-evaluation),
not `-1`; it records `-1` exactly when there is no candidate edge at all
(or the vertex is dead, a corner, or unowned); a non-negative result is a
qualifying candidate that passes the rejection tests. -/
theorem claim_C6_amended :
    ∀ (s : CState) (rm : Nat) (Llow Lmax : ℚ),
      ((s.mesh.NNList.getD rm []).isEmpty = false →
        s.mesh.is_corner rm = false →
        s.mesh.is_owned rm = true →
        identSorted s.mesh rm Llow ≠ [] →
        (∀ t ∈ identSorted s.mesh rm Llow, checkReject s.mesh rm t Lmax = true) →
        (coarsen_identify_kernel s rm Llow Lmax).1 = -2) ∧
      ((s.mesh.NNList.getD rm []).isEmpty = false →
        s.mesh.is_corner rm = false →
        s.mesh.is_owned rm = true →
        identSorted s.mesh rm Llow = [] →
        (coarsen_identify_kernel s rm Llow Lmax).1 = -1) ∧
      (∀ tv : Nat,
        (coarsen_identify_kernel s rm Llow Lmax).1 = (tv : Int) →
        tv ∈ identCandidates s.mesh rm Llow ∧
          checkReject s.mesh rm tv Lmax = false) := by
  intro s rm Llow Lmax
  refine ⟨?_, ?_, ?_⟩
  · intro h1 h2 h3 hne hall
    have hfind : (identSorted s.mesh rm Llow).find?
        (fun t => !checkReject s.mesh rm t Lmax) = none := by
      rw [List.find?_eq_none]
      intro x hx
      simp [hall x hx]
    have := (identify_characterization s rm Llow Lmax h1 h2 h3)
    rw [this, hfind]
    simp [List.isEmpty_iff, hne]
  · intro h1 h2 h3 hemp
    have := (identify_characterization s rm Llow Lmax h1 h2 h3)
    rw [this, hemp]
    rfl
  · intro tv htv
    unfold coarsen_identify_kernel at htv
    by_cases h1 : (s.mesh.NNList.getD rm []).isEmpty
    · rw [if_pos h1] at htv; simp at htv
    · rw [if_neg (by simpa using h1)] at htv
      by_cases h2 : s.mesh.is_corner rm
      · rw [if_pos h2] at htv; simp at htv
      · rw [if_neg (by simp [h2])] at htv
        by_cases h3 : s.mesh.is_owned rm
        · rw [if_neg (by simp [h3])] at htv
          rw [identLoop_fst s rm Lmax _] at htv
          cases hf : (identSorted s.mesh rm Llow).find?
              (fun t => !checkReject s.mesh rm t Lmax) with
          | none =>
            simp only [hf] at htv
            split at htv <;> omega
          | some u =>
            simp only [hf] at htv
            have hmem := List.mem_of_find?_eq_some hf
            have hpass := List.find?_some hf
            have huv : u = tv := by exact_mod_cast htv
            subst huv
            refine ⟨?_, by simpa using hpass⟩
            exact (List.perm_insertionSort _ _).subset hmem
        · rw [if_pos (by simpa using h3)] at htv
          simp at htv

/-- Witness for the amended C6 at the degenerate concrete mesh: the single
candidate is rejected and the kernel records `-2`. -/
theorem claim_C6_witness :
    (∀ t ∈ identSorted cmeshDegenerate 0 1, checkReject cmeshDegenerate 0 t 2 = true) ∧
    (coarsen_identify_kernel ⟨cmeshDegenerate, []⟩ 0 1 2).1 = -2 :=
  ⟨by decide,
   (claim_C6_amended ⟨cmeshDegenerate, []⟩ 0 1 2).1 (by decide) (by decide)
     (by decide) (by decide) (by decide)⟩

/-! ### Re-evaluation after a collapse (claim C7) -/

theorem dvFold_length (m : CMesh) (Llow Lmax : ℚ) :
    ∀ (l : List Nat) (d : List Int), (dvFold m Llow Lmax l d).length = d.length := by
  intro l
  induction l with
  | nil => intro d; rfl
  | cons j rest ih =>
    intro d
    simp only [dvFold, List.foldl_cons]
    rw [show (List.foldl _ _ rest : List Int) = dvFold m Llow Lmax rest _ from rfl]
    rw [ih]
    split <;> simp [List.length_set]

theorem dvFold_getD_not_mem (m : CMesh) (Llow Lmax : ℚ) :
    ∀ (l : List Nat) (d : List Int) (x : Nat) (v : Int), x ∉ l →
      (dvFold m Llow Lmax l d).getD x v = d.getD x v := by
  intro l
  induction l with
  | nil => intro d x v _; rfl
  | cons j rest ih =>
    intro d x v hx
    have hxj : x ≠ j := fun h => hx (h ▸ List.mem_cons_self j rest)
    have hxr : x ∉ rest := fun h => hx (List.mem_cons_of_mem j h)
    simp only [dvFold, List.foldl_cons]
    rw [show (List.foldl _ _ rest : List Int) = dvFold m Llow Lmax rest _ from rfl]
    rw [ih _ x v hxr]
    split
    · exact getD_set_other _ _ _ (fun h => hxj h.symm) _ _
    · rfl

theorem dvFold_getD_mem (m : CMesh) (Llow Lmax : ℚ) :
    ∀ (l : List Nat), l.Nodup → ∀ (d : List Int) (w : Nat), w ∈ l →
      m.is_owned w = true → w < d.length →
      (dvFold m Llow Lmax l d).getD w 0 = identResult m w Llow Lmax := by
  intro l
  induction l with
  | nil => intro _ d w hw; exact absurd hw (List.not_mem_nil w)
  | cons j rest ih =>
    intro hnd d w hw how hlen
    have hjr : j ∉ rest := (List.nodup_cons.mp hnd).1
    have hndr : rest.Nodup := (List.nodup_cons.mp hnd).2
    simp only [dvFold, List.foldl_cons]
    rw [show (List.foldl _ _ rest : List Int) = dvFold m Llow Lmax rest _ from rfl]
    rcases List.mem_cons.mp hw with hwj | hwr
    · subst hwj
      rw [how]
      simp only [if_true]
      rw [dvFold_getD_not_mem m Llow Lmax rest _ w 0 hjr]
      rw [getD_set_self _ _ hlen]
      exact identify_fst_dv m d w Llow Lmax
    · have hlen2 : w < (if m.is_owned j then
          d.set j (coarsen_identify_kernel ⟨m, d⟩ j Llow Lmax).1 else d).length := by
        split <;> simp [List.length_set, hlen]
      exact ih hndr _ w hwr how hlen2

theorem dvFold_getD_not_owned (m : CMesh) (Llow Lmax : ℚ) :
    ∀ (l : List Nat) (d : List Int) (w : Nat) (v : Int),
      m.is_owned w = false →
      (dvFold m Llow Lmax l d).getD w v = d.getD w v := by
  intro l
  induction l with
  | nil => intro d w v _; rfl
  | cons j rest ih =>
    intro d w v how
    simp only [dvFold, List.foldl_cons]
    rw [show (List.foldl _ _ rest : List Int) = dvFold m Llow Lmax rest _ from rfl]
    rw [ih _ w v how]
    cases hj : m.is_owned j with
    | false => simp
    | true =>
      have hjw : j ≠ w := fun h => by rw [h, how] at hj; exact Bool.false_ne_true hj
      simp only [if_true]
      exact getD_set_other _ _ _ hjw _ _

/-- Counterexample to claim C7 as stated: on the concrete two-triangle mesh,
immediately after `coarsen_kernel` collapses vertex 0 onto vertex 1,
`dynamic_vertex[1]` holds `-1` (the result of re-running
`coarsen_identify_kernel`), not the sentinel `-2` claimed. -/
theorem claim_C7_counterexample :
    (coarsen_kernel ⟨cmeshBase, [5, 5, 5, 5]⟩ 0 1 1 2).dynamic_vertex.getD 1 0 = -1 ∧
    ¬((coarsen_kernel ⟨cmeshBase, [5, 5, 5, 5]⟩ 0 1 1 2).dynamic_vertex.getD 1 0 = -2) :=
  ⟨by decide, by decide⟩

/-- Claim C7, amended: immediately after `coarsen_kernel` collapses `rm`
onto `t`, `dynamic_vertex[rm] = -1`, while `dynamic_vertex` at `t` and at
every current neighbour of `t` that is owned is set to the result of
re-running `coarsen_identify_kernel` on the updated mesh (not to the
constant `-2`); every other entry is unchanged. -/
theorem claim_C7_amended (s : CState) (rm t : Nat) (Llow Lmax : ℚ)
    (hrt : rm ≠ t)
    (hrm : rm < s.dynamic_vertex.length)
    (hnd : ((coarsen_kernel s rm t Llow Lmax).mesh.NNList.getD t []).Nodup)
    (htn : t ∉ (coarsen_kernel s rm t Llow Lmax).mesh.NNList.getD t [])
    (hrn : rm ∉ (coarsen_kernel s rm t Llow Lmax).mesh.NNList.getD t []) :
    ((coarsen_kernel s rm t Llow Lmax).dynamic_vertex.getD rm 0 = -1) ∧
    ((coarsen_kernel s rm t Llow Lmax).mesh.is_owned t = true →
      t < s.dynamic_vertex.length →
      (coarsen_kernel s rm t Llow Lmax).dynamic_vertex.getD t 0 =
        identResult (coarsen_kernel s rm t Llow Lmax).mesh t Llow Lmax) ∧
    (∀ w ∈ (coarsen_kernel s rm t Llow Lmax).mesh.NNList.getD t [],
      (coarsen_kernel s rm t Llow Lmax).mesh.is_owned w = true →
      w < s.dynamic_vertex.length →
      (coarsen_kernel s rm t Llow Lmax).dynamic_vertex.getD w 0 =
        identResult (coarsen_kernel s rm t Llow Lmax).mesh w Llow Lmax) ∧
    (∀ x, x ≠ rm → x ≠ t →
      x ∉ (coarsen_kernel s rm t Llow Lmax).mesh.NNList.getD t [] →
      (coarsen_kernel s rm t Llow Lmax).dynamic_vertex.getD x 0 =
        s.dynamic_vertex.getD x 0) := by
  have hmesh : (coarsen_kernel s rm t Llow Lmax).mesh = ckMesh s.mesh rm t := rfl
  set m4 := ckMesh s.mesh rm t with hm4
  set dv1 := s.dynamic_vertex.set rm (-1) with hdv1
  set dv2 := (if m4.is_owned t then
      dv1.set t (coarsen_identify_kernel ⟨m4, dv1⟩ t Llow Lmax).1
    else dv1) with hdv2
  set nbrs := m4.NNList.getD t [] with hnbrs
  have hdv : (coarsen_kernel s rm t Llow Lmax).dynamic_vertex =
      dvFold m4 Llow Lmax nbrs dv2 := rfl
  rw [hmesh] at hnd htn hrn
  rw [← hnbrs] at hnd htn hrn
  have hdv1len : dv1.length = s.dynamic_vertex.length := by
    rw [hdv1]; exact List.length_set _ _ _
  have hdv2len : dv2.length = s.dynamic_vertex.length := by
    rw [hdv2]; split
    · rw [List.length_set]; exact hdv1len
    · exact hdv1len
  refine ⟨?_, ?_, ?_, ?_⟩
  · rw [hdv, dvFold_getD_not_mem m4 Llow Lmax nbrs dv2 rm 0 hrn]
    have h2 : dv2.getD rm 0 = dv1.getD rm 0 := by
      rw [hdv2]; split
      · exact getD_set_other _ _ _ (fun h => hrt h.symm) _ _
      · rfl
    rw [h2, hdv1, getD_set_self _ _ hrm]
  · intro hot htl
    rw [hmesh] at hot
    rw [hdv, dvFold_getD_not_mem m4 Llow Lmax nbrs dv2 t 0 htn]
    rw [hdv2, if_pos hot]
    rw [getD_set_self _ _ (by rw [hdv1len]; exact htl)]
    rw [hmesh]
    exact identify_fst_dv m4 dv1 t Llow Lmax
  · intro w hw how hwl
    rw [hmesh] at how
    rw [hmesh, ← hnbrs] at hw
    rw [hdv, dvFold_getD_mem m4 Llow Lmax nbrs hnd dv2 w hw how
      (by rw [hdv2len]; exact hwl)]
    rw [hmesh]
  · intro x hxr hxt hxn
    rw [hmesh, ← hnbrs] at hxn
    rw [hdv, dvFold_getD_not_mem m4 Llow Lmax nbrs dv2 x 0 hxn]
    have h2 : dv2.getD x 0 = dv1.getD x 0 := by
      rw [hdv2]; split
      · exact getD_set_other _ _ _ (fun h => hxt h.symm) _ _
      · rfl
    rw [h2, hdv1, getD_set_other _ _ _ (fun h => hxr h.symm) _ _]

/-- Witness for the amended C7 at a concrete collapse of vertex 0 onto
vertex 1. -/
theorem claim_C7_witness :
    (coarsen_kernel ⟨cmeshBase, [5, 5, 5, 5]⟩ 0 1 1 2).dynamic_vertex.getD 0 0 = -1 ∧
    (coarsen_kernel ⟨cmeshBase, [5, 5, 5, 5]⟩ 0 1 1 2).dynamic_vertex.getD 1 0 =
      identResult (coarsen_kernel ⟨cmeshBase, [5, 5, 5, 5]⟩ 0 1 1 2).mesh 1 1 2 :=
  ⟨(claim_C7_amended ⟨cmeshBase, [5, 5, 5, 5]⟩ 0 1 1 2 (by decide) (by decide)
      (by decide) (by decide) (by decide)).1,
   (claim_C7_amended ⟨cmeshBase, [5, 5, 5, 5]⟩ 0 1 1 2 (by decide) (by decide)
      (by decide) (by decide) (by decide)).2.1 (by decide) (by decide)⟩

/-! ### Refinement marking (claim C2) and midpoint placement (claim C4) -/

theorem countP_isB (C : Nat → Bool) (b : Nat) :
    ∀ l : List Nat, l.Nodup → b ∈ l →
      (l.countP fun j => C j && decide (j = b)) = if C b then 1 else 0 := by
  intro l
  induction l with
  | nil => intro _ hb; exact absurd hb (List.not_mem_nil b)
  | cons x rest ih =>
    intro hnd hb
    rw [List.countP_cons]
    by_cases hxb : x = b
    · subst hxb
      have hxr : x ∉ rest := (List.nodup_cons.mp hnd).1
      have h0 : (rest.countP fun j => C j && decide (j = x)) = 0 := by
        rw [List.countP_eq_zero]
        intro j hj
        simp only [Bool.and_eq_true, decide_eq_true_eq, not_and]
        intro _ hj2
        exact absurd (hj2 ▸ hj) hxr
      rw [h0]
      simp
    · have hbr : b ∈ rest := by
        rcases List.mem_cons.mp hb with h | h
        · exact absurd h.symm hxb
        · exact h
      rw [ih (List.nodup_cons.mp hnd).2 hbr]
      simp [hxb]

theorem sum_map_support_one (g : Nat → Nat) (b : Nat) :
    ∀ l : List Nat, l.Nodup → b ∈ l → (∀ i ∈ l, i ≠ b → g i = 0) →
      (l.map g).sum = g b := by
  intro l
  induction l with
  | nil => intro _ hb; exact absurd hb (List.not_mem_nil b)
  | cons x rest ih =>
    intro hnd hb hz
    simp only [List.map_cons, List.sum_cons]
    by_cases hxb : x = b
    · subst hxb
      have hxr : x ∉ rest := (List.nodup_cons.mp hnd).1
      have h0 : (rest.map g).sum = 0 := by
        apply List.sum_eq_zero
        intro y hy
        rcases List.mem_map.mp hy with ⟨i, hi, rfl⟩
        exact hz i (List.mem_cons_of_mem x hi) (fun h => hxr (h ▸ hi))
      rw [h0]
      omega
    · have hbr : b ∈ rest := by
        rcases List.mem_cons.mp hb with h | h
        · exact absurd h.symm hxb
        · exact h
      rw [hz x (List.mem_cons_self x rest) hxb,
        ih (List.nodup_cons.mp hnd).2 hbr
          (fun i hi => hz i (List.mem_cons_of_mem x hi))]
      omega

theorem sum_map_support_two (g : Nat → Nat) (a b : Nat) (hab : a ≠ b) :
    ∀ l : List Nat, l.Nodup → a ∈ l → b ∈ l →
      (∀ i ∈ l, i ≠ a → i ≠ b → g i = 0) → (l.map g).sum = g a + g b := by
  intro l
  induction l with
  | nil => intro _ ha; exact absurd ha (List.not_mem_nil a)
  | cons x rest ih =>
    intro hnd ha hb hz
    simp only [List.map_cons, List.sum_cons]
    have hxr : x ∉ rest := (List.nodup_cons.mp hnd).1
    have hndr : rest.Nodup := (List.nodup_cons.mp hnd).2
    by_cases hxa : x = a
    · subst hxa
      have hbr : b ∈ rest := by
        rcases List.mem_cons.mp hb with h | h
        · exact absurd h.symm hab
        · exact h
      rw [sum_map_support_one g b rest hndr hbr
        (fun i hi hib => hz i (List.mem_cons_of_mem x hi)
          (fun h => hxr (h ▸ hi)) hib)]
    · by_cases hxb : x = b
      · subst hxb
        have har : a ∈ rest := by
          rcases List.mem_cons.mp ha with h | h
          · exact absurd h.symm hxa
          · exact h
        rw [sum_map_support_one g a rest hndr har
          (fun i hi hia => hz i (List.mem_cons_of_mem x hi) hia
            (fun h => hxr (h ▸ hi)))]
        omega
      · have har : a ∈ rest := by
          rcases List.mem_cons.mp ha with h | h
          · exact absurd h.symm hxa
          · exact h
        have hbr : b ∈ rest := by
          rcases List.mem_cons.mp hb with h | h
          · exact absurd h.symm hxb
          · exact h
        rw [hz x (List.mem_cons_self x rest) hxa hxb,
          ih hndr har hbr (fun i hi => hz i (List.mem_cons_of_mem x hi))]
        omega

/-- Counting through a guarded `filterMap`. -/
theorem countP_filterMap_if {α β : Type} (C : α → Prop) [DecidablePred C]
    (F : α → β) (p : β → Bool) :
    ∀ l : List α,
      ((l.filterMap fun x => if C x then some (F x) else none).countP p) =
        l.countP (fun x => decide (C x) && p (F x)) := by
  intro l
  induction l with
  | nil => rfl
  | cons x rest ih =>
    by_cases hc : C x
    · simp [List.filterMap_cons, hc, List.countP_cons, ih]
    · simp [List.filterMap_cons, hc, List.countP_cons, ih]

/-- The contribution of vertex `i` to the pass, as counted for the
undirected edge `{a, b}`. -/
theorem markPass_vertex_count (m : RMesh) (Lmax : ℚ) (a b : Nat) (hab : a ≠ b)
    (hnda : (m.NNList.getD a []).Nodup) (hmem : b ∈ m.NNList.getD a []) :
    ((m.NNList.getD a []).filterMap fun j =>
        if m.gnn a < m.gnn j ∧ Lmax < m.len a j then some (a, j) else none).countP
      (fun p => p = (a, b) ∨ p = (b, a)) =
    if m.gnn a < m.gnn b ∧ Lmax < m.len a b then 1 else 0 := by
  rw [countP_filterMap_if (fun j => m.gnn a < m.gnn j ∧ Lmax < m.len a j)
    (fun j => (a, j)) _ (m.NNList.getD a [])]
  have hcongr : ∀ j ∈ m.NNList.getD a [],
      ((decide (m.gnn a < m.gnn j ∧ Lmax < m.len a j)) &&
        decide ((a, j) = (a, b) ∨ (a, j) = (b, a))) = true ↔
      ((decide (m.gnn a < m.gnn j ∧ Lmax < m.len a j)) && decide (j = b)) = true := by
    intro j _
    simp only [Bool.and_eq_true, decide_eq_true_eq]
    constructor
    · rintro ⟨h1, h2 | h2⟩
      · injection h2 with hf hs
        exact ⟨h1, hs⟩
      · injection h2 with hf hs
        exact absurd hf hab
    · rintro ⟨h1, rfl⟩
      exact ⟨h1, Or.inl rfl⟩
  rw [List.countP_congr hcongr]
  rw [countP_isB _ b _ hnda hmem]
  by_cases hc : m.gnn a < m.gnn b ∧ Lmax < m.len a b
  · simp [hc]
  · simp [hc]

/-- Vertices other than the two endpoints contribute nothing. -/
theorem markPass_vertex_count_zero (m : RMesh) (Lmax : ℚ) (a b i : Nat)
    (hia : i ≠ a) (hib : i ≠ b) :
    ((m.NNList.getD i []).filterMap fun j =>
        if m.gnn i < m.gnn j ∧ Lmax < m.len i j then some (i, j) else none).countP
      (fun p => p = (a, b) ∨ p = (b, a)) = 0 := by
  rw [List.countP_eq_zero]
  intro p hp
  rcases List.mem_filterMap.mp hp with ⟨j, _, hj⟩
  have hpij : p = (i, j) := by
    by_cases hc : m.gnn i < m.gnn j ∧ Lmax < m.len i j
    · rw [if_pos hc] at hj; exact (Option.some_injective _ hj).symm
    · rw [if_neg hc] at hj; exact absurd hj (Option.noConfusion)
  subst hpij
  simp only [decide_eq_true_eq]
  rintro (hp | hp)
  · exact hia (by simpa using congrArg Prod.fst hp)
  · exact hib (by simpa using congrArg Prod.fst hp)

/-- Claim C2: in the marking pass of `Refine2D::refine`, the undirected
edge `{a, b}` is marked - and therefore `refine_edge` is called and one
midpoint vertex is created for it - exactly once when its metric length at
the start of the pass exceeds `L_max`, and never otherwise; moreover every
mark is evaluated from the endpoint with the lesser global number. -/
theorem claim_C2_marking :
    ∀ (m : RMesh) (Lmax : ℚ) (a b : Nat),
      a < m.NNodes → b < m.NNodes → a ≠ b →
      (m.NNList.getD a []).Nodup → (m.NNList.getD b []).Nodup →
      b ∈ m.NNList.getD a [] → a ∈ m.NNList.getD b [] →
      m.gnn a ≠ m.gnn b → m.len a b = m.len b a →
      (edgeMarks m Lmax a b = if Lmax < m.len a b then 1 else 0) ∧
      (∀ p ∈ markPass m Lmax, m.gnn p.1 < m.gnn p.2) := by
  intro m Lmax a b haN hbN hab hnda hndb hba hab2 hgnn hsym
  constructor
  · unfold edgeMarks markPass
    rw [List.countP_flatMap]
    simp only [Function.comp_def]
    rw [sum_map_support_two _ a b hab (List.range m.NNodes)
      (List.nodup_range m.NNodes) (List.mem_range.mpr haN)
      (List.mem_range.mpr hbN)
      (fun i _ hia hib =>
        markPass_vertex_count_zero m Lmax a b i hia hib)]
    have hga := markPass_vertex_count m Lmax a b hab hnda hba
    have hgb := markPass_vertex_count m Lmax b a (fun h => hab h.symm) hndb hab2
    rw [show (fun p => decide (p = (b, a) ∨ p = (a, b))) =
      (fun p => decide (p = (a, b) ∨ p = (b, a))) from
      funext (fun p => by simp [or_comm])] at hgb
    simp only [hga, hgb, hsym]
    rcases Nat.lt_or_ge (m.gnn a) (m.gnn b) with hlt | hge
    · by_cases hL : Lmax < m.len b a
      · rw [if_pos ⟨hlt, hL⟩, if_neg (fun hcon => by omega), if_pos hL]
      · rw [if_neg (fun hcon => hL hcon.2), if_neg (fun hcon => hL hcon.2),
          if_neg hL]
    · have hlt : m.gnn b < m.gnn a := by omega
      by_cases hL : Lmax < m.len b a
      · rw [if_neg (fun hcon => by omega), if_pos ⟨hlt, hL⟩, if_pos hL]
      · rw [if_neg (fun hcon => hL hcon.2), if_neg (fun hcon => hL hcon.2),
          if_neg hL]
  · intro p hp
    rcases List.mem_flatMap.mp hp with ⟨i, _, hpf⟩
    rcases List.mem_filterMap.mp hpf with ⟨j, _, hj⟩
    by_cases hc : m.gnn i < m.gnn j ∧ Lmax < m.len i j
    · rw [if_pos hc] at hj
      cases Option.some_injective _ hj
      exact hc.1
    · rw [if_neg hc] at hj
      exact absurd hj (Option.noConfusion)

/-- Witness for C2: a two-vertex mesh whose single edge is longer than
`L_max` receives exactly one mark. -/
theorem claim_C2_witness :
    edgeMarks rmeshA 1 0 1 = 1 ∧ (1 : ℚ) < rmeshA.len 0 1 := by
  have h := (claim_C2_marking rmeshA 1 0 1 (by decide) (by decide) (by decide)
    (by decide) (by decide) (by decide) (by decide) (by decide) (by decide)).1
  exact ⟨by rw [h]; decide, by decide⟩

/-- Claim C4: `refine_edge` orders the endpoints so the lesser-gnn one is
`x0` and places the new vertex and its metric exactly as the specification
formula states. -/
theorem claim_C4_refine_edge :
    ∀ (g : RGeom) (n0 n1 : Nat), g.gnn n0 ≠ g.gnn n1 →
      refine_edge g n0 n1 = refine_edge_spec g n0 n1 := by
  intro g n0 n1 h
  unfold refine_edge refine_edge_spec
  rcases Nat.lt_or_ge (g.gnn n0) (g.gnn n1) with hlt | hge
  · rw [if_neg (show ¬g.gnn n0 > g.gnn n1 by omega),
      if_pos (show g.gnn n0 ≤ g.gnn n1 by omega),
      if_pos (show g.gnn n0 ≤ g.gnn n1 by omega)]
  · have hlt2 : g.gnn n1 < g.gnn n0 := by omega
    rw [if_pos (show g.gnn n0 > g.gnn n1 by omega),
      if_neg (show ¬g.gnn n0 ≤ g.gnn n1 by omega),
      if_neg (show ¬g.gnn n0 ≤ g.gnn n1 by omega)]

/-- Witness for C4 at a concrete pair of vertices given in
greater-gnn-first order. -/
theorem claim_C4_witness :
    refine_edge rgeomA 1 0 = refine_edge_spec rgeomA 1 0 ∧
    (refine_edge rgeomA 1 0).1 = (0, 1) :=
  ⟨claim_C4_refine_edge rgeomA 1 0 (by decide), by decide⟩


/-! ### Extraction lemmas for the 2D flip decision -/

theorem origNbrIdx_nonneg (s : SwapMesh) (a b : Int) : 0 ≤ origNbrIdx s a b := by
  unfold origNbrIdx
  split
  · positivity
  · norm_num

theorem sideCheckA_gt (s : SwapMesh) (i : Nat) (opposite lat a b c d : Int)
    (h : sideCheckA s i opposite lat = some (a, b, c, d))
    (hgt : (i : Int) > lat) :
    a = origNbrIdx s lat (i : Int) ∧ s.mbit lat a = false ∧
    b = (if opposite < lat then opposite else lat) ∧
    c = (if opposite < lat then lat else opposite) ∧
    d = origNbrIdx s b c ∧ s.mbit b d = false := by
  simp only [sideCheckA, if_pos hgt] at h
  by_cases c1 : origNbrIdx s lat (i : Int) ≥ (s.deg lat : Int)
  · rw [if_pos c1] at h
    exact Option.noConfusion h
  · rw [if_neg c1] at h
    by_cases c2 : s.mbit lat (origNbrIdx s lat (i : Int)) = true
    · rw [if_pos c2] at h
      exact Option.noConfusion h
    · rw [if_neg c2] at h
      by_cases hol : opposite < lat
      · simp only [if_pos hol] at h
        by_cases c3 : origNbrIdx s opposite lat ≥ (s.deg opposite : Int)
        · rw [if_pos c3] at h
          exact Option.noConfusion h
        · rw [if_neg c3] at h
          by_cases c4 : s.mbit opposite (origNbrIdx s opposite lat) = true
          · rw [if_pos c4] at h
            exact Option.noConfusion h
          · rw [if_neg c4] at h
            have hinj := Option.some_injective _ h
            rw [Prod.mk.injEq, Prod.mk.injEq, Prod.mk.injEq] at hinj
            obtain ⟨h1, h2, h3, h4⟩ := hinj
            subst h1
            subst h2
            subst h3
            subst h4
            refine ⟨rfl, by simpa using c2, by rw [if_pos hol],
              by rw [if_pos hol], rfl, by simpa using c4⟩
      · simp only [if_neg hol] at h
        by_cases c3 : origNbrIdx s lat opposite ≥ (s.deg lat : Int)
        · rw [if_pos c3] at h
          exact Option.noConfusion h
        · rw [if_neg c3] at h
          by_cases c4 : s.mbit lat (origNbrIdx s lat opposite) = true
          · rw [if_pos c4] at h
            exact Option.noConfusion h
          · rw [if_neg c4] at h
            have hinj := Option.some_injective _ h
            rw [Prod.mk.injEq, Prod.mk.injEq, Prod.mk.injEq] at hinj
            obtain ⟨h1, h2, h3, h4⟩ := hinj
            subst h1
            subst h2
            subst h3
            subst h4
            refine ⟨rfl, by simpa using c2, by rw [if_neg hol],
              by rw [if_neg hol], rfl, by simpa using c4⟩

theorem oppCatchUp_ne (s : SwapMesh) (opposite lat mn0 mx0 idx_opp0 : Int)
    (r : Int × Int × Int)
    (h : oppCatchUp s opposite lat mn0 mx0 idx_opp0 = some r)
    (hne : ¬(idx_opp0 = -1)) : r = (mn0, mx0, idx_opp0) := by
  simp only [oppCatchUp, if_neg hne] at h
  exact (Option.some_injective _ h).symm

theorem len2_cases {α : Type} (l : List α) (h : l.length = 2) :
    ∃ x y, l = [x, y] := by
  cases l with
  | nil => simp at h
  | cons a t =>
    cases t with
    | nil => simp at h
    | cons b u =>
      cases u with
      | nil => exact ⟨a, b, rfl⟩
      | cons c v => simp at h

theorem decideLateral_commit (c : SwapCtx) (s : SwapMesh) (i : Nat)
    (opposite eid0 eid1 latn latm third fourth : Int) (p : FlipPlan)
    (h : decideLateral c s i opposite eid0 eid1 latn latm third fourth = .commit p) :
    p.opposite = opposite ∧ p.eid0 = eid0 ∧ p.eid1 = eid1 ∧
    p.latn = latn ∧ p.latm = latm ∧ p.third = third ∧ p.fourth = fourth ∧
    p.worst = min (s.quality.getD eid0.toNat 0) (s.quality.getD eid1.toNat 0) ∧
    min p.q0 p.q1 > p.worst ∧
    ((i : Int) > latn →
      p.idx_in_n = origNbrIdx s latn (i : Int) ∧
      s.mbit latn p.idx_in_n = false ∧
      p.mn_n = (if opposite < latn then opposite else latn) ∧
      p.mx_n = (if opposite < latn then latn else opposite) ∧
      p.idx_opp_n = origNbrIdx s p.mn_n p.mx_n ∧
      s.mbit p.mn_n p.idx_opp_n = false) ∧
    ((i : Int) > latm →
      p.idx_in_m = origNbrIdx s latm (i : Int) ∧
      s.mbit latm p.idx_in_m = false ∧
      p.mn_m = (if opposite < latm then opposite else latm) ∧
      p.mx_m = (if opposite < latm then latm else opposite) ∧
      p.idx_opp_m = origNbrIdx s p.mn_m p.mx_m ∧
      s.mbit p.mn_m p.idx_opp_m = false) := by
  simp only [decideLateral] at h
  split at h
  · exact EdgeOutcome.noConfusion h
  rename_i idx_in_n mn_n0 mx_n0 idx_opp_n0 heqn
  split at h
  · exact EdgeOutcome.noConfusion h
  rename_i idx_in_m mn_m0 mx_m0 idx_opp_m0 heqm
  split at h
  · exact EdgeOutcome.noConfusion h
  rename_i idx_of_n heq_cn
  split at h
  · exact EdgeOutcome.noConfusion h
  rename_i idx_of_m heq_cm
  split at h
  · exact EdgeOutcome.noConfusion h
  rename_i mn_n mx_n idx_opp_n heq_on
  split at h
  · exact EdgeOutcome.noConfusion h
  rename_i mn_m mx_m idx_opp_m heq_om
  split at h
  case isFalse => exact EdgeOutcome.noConfusion h
  rename_i hq
  injection h with hp
  subst hp
  refine ⟨rfl, rfl, rfl, rfl, rfl, rfl, rfl, rfl, hq, ?_, ?_⟩
  · intro hgt
    obtain ⟨hg1, hg2, hg3, hg4, hg5, hg6⟩ :=
      sideCheckA_gt s i opposite latn _ _ _ _ heqn hgt
    have h0 := origNbrIdx_nonneg s mn_n0 mx_n0
    rw [← hg5] at h0
    have hne : ¬(idx_opp_n0 = -1) := by omega
    have hoc := oppCatchUp_ne s opposite latn mn_n0 mx_n0 idx_opp_n0 _ heq_on hne
    rw [Prod.mk.injEq, Prod.mk.injEq] at hoc
    obtain ⟨ho1, ho2, ho3⟩ := hoc
    subst ho1
    subst ho2
    subst ho3
    exact ⟨hg1, hg2, hg3, hg4, hg5, hg6⟩
  · intro hgt
    obtain ⟨hg1, hg2, hg3, hg4, hg5, hg6⟩ :=
      sideCheckA_gt s i opposite latm _ _ _ _ heqm hgt
    have h0 := origNbrIdx_nonneg s mn_m0 mx_m0
    rw [← hg5] at h0
    have hne : ¬(idx_opp_m0 = -1) := by omega
    have hoc := oppCatchUp_ne s opposite latm mn_m0 mx_m0 idx_opp_m0 _ heq_om hne
    rw [Prod.mk.injEq, Prod.mk.injEq] at hoc
    obtain ⟨ho1, ho2, ho3⟩ := hoc
    subst ho1
    subst ho2
    subst ho3
    exact ⟨hg1, hg2, hg3, hg4, hg5, hg6⟩

set_option maxHeartbeats 1000000 in
theorem decideEdge_commit (c : SwapCtx) (s : SwapMesh) (i it : Nat) (p : FlipPlan)
    (h : decideEdge c s i it = .commit p) :
    (s.marked.getD i []).getD it false = true ∧
    p.opposite = (s.NNList.getD i []).getD it (-1) ∧
    c.isHalo p.opposite = false ∧
    p.eid0 ∈ neighElements s (i : Int) p.opposite ∧
    p.eid1 ∈ neighElements s (i : Int) p.opposite ∧
    p.worst = min (s.quality.getD p.eid0.toNat 0) (s.quality.getD p.eid1.toNat 0) ∧
    min p.q0 p.q1 > p.worst ∧
    ((i : Int) > p.latn →
      p.idx_in_n = origNbrIdx s p.latn (i : Int) ∧
      s.mbit p.latn p.idx_in_n = false ∧
      p.mn_n = (if p.opposite < p.latn then p.opposite else p.latn) ∧
      p.mx_n = (if p.opposite < p.latn then p.latn else p.opposite) ∧
      p.idx_opp_n = origNbrIdx s p.mn_n p.mx_n ∧
      s.mbit p.mn_n p.idx_opp_n = false) ∧
    ((i : Int) > p.latm →
      p.idx_in_m = origNbrIdx s p.latm (i : Int) ∧
      s.mbit p.latm p.idx_in_m = false ∧
      p.mn_m = (if p.opposite < p.latm then p.opposite else p.latm) ∧
      p.mx_m = (if p.opposite < p.latm then p.latm else p.opposite) ∧
      p.idx_opp_m = origNbrIdx s p.mn_m p.mx_m ∧
      s.mbit p.mn_m p.idx_opp_m = false) := by
  simp only [decideEdge] at h
  by_cases hm : (s.marked.getD i []).getD it false = false
  · rw [if_pos hm] at h
    exact EdgeOutcome.noConfusion h
  · rw [if_neg hm] at h
    set opp := (s.NNList.getD i []).getD it (-1) with hopp
    by_cases hh : c.isHalo opp = true
    · rw [if_pos hh] at h
      exact EdgeOutcome.noConfusion h
    · rw [if_neg hh] at h
      by_cases hlen : (neighElements s (i : Int) opp).length = 2
      · rw [if_neg (fun hc => hc hlen)] at h
        split at h
        · exact EdgeOutcome.noConfusion h
        obtain ⟨f1, f2, f3, f4, f5, f6, f7, f8, f9, f10, f11⟩ :=
          decideLateral_commit _ _ _ _ _ _ _ _ _ _ _ h
        obtain ⟨x, y, hxy⟩ := len2_cases _ hlen
        refine ⟨by simpa using hm, f1, by rw [f1]; simpa using hh,
          ?_, ?_, ?_, f9, ?_, ?_⟩
        · rw [f2, f1, hxy]
          simp
        · rw [f3, f1, hxy]
          simp
        · rw [f2, f3]
          exact f8
        · rw [f4, f1]
          exact f10
        · rw [f5, f1]
          exact f11
      · rw [if_pos hlen] at h
        exact EdgeOutcome.noConfusion h



/-! ### Lifting commit-log properties through the pass -/

theorem foldLog_log_mem {α : Type} (step : SwapMesh → α → SwapMesh × List FlipCommit)
    (P : FlipCommit → Prop)
    (hstep : ∀ s x, ∀ e ∈ (step s x).2, P e) :
    ∀ (l : List α) (init : SwapMesh × List FlipCommit),
      (∀ e ∈ init.2, P e) →
      ∀ e ∈ (foldLog step l init).2, P e := by
  intro l
  induction l with
  | nil => intro init hinit e he; exact hinit e he
  | cons x t ih =>
      intro init hinit e he
      simp only [foldLog, List.foldl_cons] at he
      refine ih ((step init.1 x).1, init.2 ++ (step init.1 x).2) ?_ e he
      intro e2 he2
      rcases List.mem_append.1 he2 with h1 | h2
      · exact hinit e2 h1
      · exact hstep init.1 x e2 h2

theorem foldLog_state {α : Type} (step : SwapMesh → α → SwapMesh × List FlipCommit)
    (P : SwapMesh → Prop)
    (hstep : ∀ s x, P s → P (step s x).1) :
    ∀ (l : List α) (init : SwapMesh × List FlipCommit),
      P init.1 → P (foldLog step l init).1 := by
  intro l
  induction l with
  | nil => intro init hinit; exact hinit
  | cons x t ih =>
      intro init hinit
      simp only [foldLog, List.foldl_cons]
      exact ih ((step init.1 x).1, init.2 ++ (step init.1 x).2) (hstep init.1 x hinit)

theorem processEdge_log (c : SwapCtx) (s : SwapMesh) (i it : Nat) :
    ∀ e ∈ (processEdge c s i it).2,
      e.pre = s ∧ e.i = i ∧ e.it = it ∧
      decideEdge c e.pre e.i e.it = .commit e.plan := by
  intro e he
  unfold processEdge at he
  split at he
  · simp at he
  · simp at he
  · rename_i p hp
    simp only [List.mem_singleton] at he
    subst he
    exact ⟨rfl, rfl, rfl, hp⟩

theorem processVertex_log (c : SwapCtx) (s : SwapMesh) (i : Nat) :
    ∀ e ∈ (processVertex c s i).2,
      c.isHalo (i : Int) = false ∧ e.i = i ∧
      decideEdge c e.pre e.i e.it = .commit e.plan := by
  intro e he
  unfold processVertex at he
  by_cases hh : c.isHalo (i : Int) = true
  · rw [if_pos hh] at he
    simp at he
  · rw [if_neg hh] at he
    have hmain := foldLog_log_mem (fun s2 it2 => processEdge c s2 i it2)
      (fun e2 => e2.i = i ∧ decideEdge c e2.pre e2.i e2.it = .commit e2.plan)
      ?_ (List.range (s.origDeg.getD i 0)) (s, []) (by simp) e he
    · exact ⟨Bool.not_eq_true _ ▸ hh, hmain.1, hmain.2⟩
    · intro s2 it2 e2 he2
      obtain ⟨h1, h2, h3, h4⟩ := processEdge_log c s2 i it2 e2 he2
      exact ⟨h2, h4⟩

theorem swapPass_log (c : SwapCtx) (s : SwapMesh) :
    ∀ e ∈ (swapPass c s).2,
      c.isHalo (e.i : Int) = false ∧
      decideEdge c e.pre e.i e.it = .commit e.plan := by
  intro e he
  unfold swapPass at he
  refine foldLog_log_mem (processVertex c)
    (fun e2 => c.isHalo (e2.i : Int) = false ∧
      decideEdge c e2.pre e2.i e2.it = .commit e2.plan)
    ?_ (List.range s.NNList.length) (s, []) (by simp) e he
  intro s2 i2 e2 he2
  obtain ⟨h1, h2, h3⟩ := processVertex_log c s2 i2 e2 he2
  exact ⟨h2 ▸ h1, h3⟩


/-! ### Halo handling in the 2D swap loop -/

theorem decideEdge_halo (c : SwapCtx) (s : SwapMesh) (i it : Nat)
    (hm : (s.marked.getD i []).getD it false = true)
    (hh : c.isHalo ((s.NNList.getD i []).getD it (-1)) = true) :
    decideEdge c s i it = .clear := by
  unfold decideEdge
  rw [if_neg (by rw [hm]; simp), if_pos hh]

theorem processEdge_halo (c : SwapCtx) (s : SwapMesh) (i it : Nat)
    (hm : (s.marked.getD i []).getD it false = true)
    (hh : c.isHalo ((s.NNList.getD i []).getD it (-1)) = true) :
    processEdge c s i it = (clearMark s i it, []) := by
  unfold processEdge
  rw [decideEdge_halo c s i it hm hh]

theorem processVertex_halo (c : SwapCtx) (s : SwapMesh) (i : Nat)
    (hh : c.isHalo (i : Int) = true) :
    processVertex c s i = (clearAllMarks s i, []) := by
  unfold processVertex
  rw [if_pos hh]


/-- **C5** (counterexample). In the concrete mesh `swapMeshB` with halo
vertex 3, the sweep commits a flip of the non-halo edge {0,1} whose
lateral vertex 3 is in the halo: element 1, which is incident to the halo
vertex, has its `ENList` entries rewritten by the sweep, refuting "no
element incident to a halo vertex is modified". -/
theorem claim_C5_counterexample :
    swapCtxB.isHalo 3 = true ∧
    swapMeshB.elemOf 1 0 = 3 ∧
    ¬ ((swapPass swapCtxB swapMeshB).1.elemOf 1 0 = swapMeshB.elemOf 1 0 ∧
       (swapPass swapCtxB swapMeshB).1.elemOf 1 1 = swapMeshB.elemOf 1 1 ∧
       (swapPass swapCtxB swapMeshB).1.elemOf 1 2 = swapMeshB.elemOf 1 2) := by
  decide

/-- **C5** (amended). During a 2D Swap sweep: (1) a halo vertex only has
its whole mark vector cleared and none of its edge slots processed;
(2) a marked edge whose opposite endpoint is a halo vertex is unmarked
without being flipped; (3) every committed flip is decided from a
non-halo vertex and flips an edge whose opposite endpoint is non-halo.
Elements merely incident to a halo vertex through a lateral vertex may
still be modified (see the counterexample). -/
theorem claim_C5_amended :
    (∀ (c : SwapCtx) (s : SwapMesh) (i : Nat), c.isHalo (i : Int) = true →
        processVertex c s i = (clearAllMarks s i, [])) ∧
    (∀ (c : SwapCtx) (s : SwapMesh) (i it : Nat),
        (s.marked.getD i []).getD it false = true →
        c.isHalo ((s.NNList.getD i []).getD it (-1)) = true →
        processEdge c s i it = (clearMark s i it, [])) ∧
    (∀ (c : SwapCtx) (s : SwapMesh), ∀ e ∈ (swapPass c s).2,
        c.isHalo (e.i : Int) = false ∧ c.isHalo e.plan.opposite = false) := by
  refine ⟨fun c s i hh => processVertex_halo c s i hh,
    fun c s i it hm hh => processEdge_halo c s i it hm hh, ?_⟩
  intro c s e he
  obtain ⟨h1, h2⟩ := swapPass_log c s e he
  obtain ⟨g1, g2, g3, g4⟩ := decideEdge_commit c e.pre e.i e.it e.plan h2
  exact ⟨h1, g3⟩

/-- Witness for C5: the amended statement applied to the concrete mesh
`swapMeshB` at halo vertex 3, at the marked slot (0,2) whose opposite is
the halo vertex 3, and at the recorded commit. -/
theorem claim_C5_witness :
    processVertex swapCtxB swapMeshB 3 = (clearAllMarks swapMeshB 3, []) ∧
    processEdge swapCtxB swapMeshB 0 2 = (clearMark swapMeshB 0 2, []) ∧
    swapCtxB.isHalo (commitB.i : Int) = false :=
  ⟨claim_C5_amended.1 swapCtxB swapMeshB 3 (by decide),
   claim_C5_amended.2.1 swapCtxB swapMeshB 0 2 (by decide) (by decide),
   (claim_C5_amended.2.2 swapCtxB swapMeshB commitB (by decide)).1⟩

/-- **C8** (counterexample). In `swapMeshB` the sweep commits the flip of
edge {0,1} while the lateral edges (0,2) and (0,3) still carry marks
(in the slots of vertex 0): no mark check is performed on a lateral
vertex whose index exceeds the processing vertex, refuting "a flip is
never committed while any lateral edge carries a mark". -/
theorem claim_C8_counterexample :
    ((swapPass swapCtxB swapMeshB).2.all lateralsUnmarked) = false := by
  decide

/-- **C8** (amended). For every flip committed by a 2D sweep, and for
each lateral vertex whose index is smaller than the processing vertex
`i`, the decision-time state has no mark in the lateral vertex's slot
toward `i` and no mark in the slot of the lesser endpoint of the
(opposite, lateral) edge toward its greater endpoint; no check is made
for a lateral vertex numbered above `i`. -/
theorem claim_C8_amended (c : SwapCtx) (s : SwapMesh) (e : FlipCommit)
    (he : e ∈ (swapPass c s).2) :
    ((e.i : Int) > e.plan.latn →
      e.pre.mbit e.plan.latn (origNbrIdx e.pre e.plan.latn (e.i : Int)) = false ∧
      e.pre.mbit
        (if e.plan.opposite < e.plan.latn then e.plan.opposite else e.plan.latn)
        (origNbrIdx e.pre
          (if e.plan.opposite < e.plan.latn then e.plan.opposite else e.plan.latn)
          (if e.plan.opposite < e.plan.latn then e.plan.latn else e.plan.opposite))
        = false) ∧
    ((e.i : Int) > e.plan.latm →
      e.pre.mbit e.plan.latm (origNbrIdx e.pre e.plan.latm (e.i : Int)) = false ∧
      e.pre.mbit
        (if e.plan.opposite < e.plan.latm then e.plan.opposite else e.plan.latm)
        (origNbrIdx e.pre
          (if e.plan.opposite < e.plan.latm then e.plan.opposite else e.plan.latm)
          (if e.plan.opposite < e.plan.latm then e.plan.latm else e.plan.opposite))
        = false) := by
  obtain ⟨h1, h2⟩ := swapPass_log c s e he
  obtain ⟨g1, g2, g3, g4, g5, g6, g7, g8, g9⟩ :=
    decideEdge_commit c e.pre e.i e.it e.plan h2
  constructor
  · intro hgt
    obtain ⟨f1, f2, f3, f4, f5, f6⟩ := g8 hgt
    refine ⟨by rw [← f1]; exact f2, ?_⟩
    rw [← f3, ← f4, ← f5]
    exact f6
  · intro hgt
    obtain ⟨f1, f2, f3, f4, f5, f6⟩ := g9 hgt
    refine ⟨by rw [← f1]; exact f2, ?_⟩
    rw [← f3, ← f4, ← f5]
    exact f6

/-- Witness for C8: in `swapMeshC` the flip of edge {2,3} is committed
from vertex 2 with lateral vertices 0 and 1 below it, and the recorded
decision-time state indeed has both checked slots clear. -/
theorem claim_C8_witness :
    commitC.pre.mbit commitC.plan.latn
      (origNbrIdx commitC.pre commitC.plan.latn (commitC.i : Int)) = false ∧
    commitC.pre.mbit
      (if commitC.plan.opposite < commitC.plan.latn then commitC.plan.opposite
        else commitC.plan.latn)
      (origNbrIdx commitC.pre
        (if commitC.plan.opposite < commitC.plan.latn then commitC.plan.opposite
          else commitC.plan.latn)
        (if commitC.plan.opposite < commitC.plan.latn then commitC.plan.latn
          else commitC.plan.opposite)) = false :=
  (claim_C8_amended swapCtxC swapMeshC commitC (by decide)).1 (by decide)


/-! ### Quality-cache and adjacency-validity preservation (2D flips) -/

theorem getD_mem_of_lt {α : Type} (l : List α) (j : Nat) (d : α)
    (h : j < l.length) : l.getD j d ∈ l := by
  rw [List.getD_eq_getElem l d h]
  exact List.getElem_mem h

theorem setQ_quality (s : SwapMesh) (e : Int) (q : ℚ) :
    (setQ s e q).quality = s.quality.set e.toNat q := rfl

theorem setQ_NEList (s : SwapMesh) (e : Int) (q : ℚ) :
    (setQ s e q).NEList = s.NEList := rfl

theorem setNNentry_quality (s : SwapMesh) (v : Int) (i : Nat) (x : Int) :
    (setNNentry s v i x).quality = s.quality := rfl

theorem setNNentry_NEList (s : SwapMesh) (v : Int) (i : Nat) (x : Int) :
    (setNNentry s v i x).NEList = s.NEList := rfl

theorem setMark_quality (s : SwapMesh) (v : Int) (i : Nat) (b : Bool) :
    (setMark s v i b).quality = s.quality := rfl

theorem setMark_NEList (s : SwapMesh) (v : Int) (i : Nat) (b : Bool) :
    (setMark s v i b).NEList = s.NEList := rfl

theorem setEN_quality (s : SwapMesh) (pos : Nat) (x : Int) :
    (setEN s pos x).quality = s.quality := rfl

theorem setEN_NEList (s : SwapMesh) (pos : Nat) (x : Int) :
    (setEN s pos x).NEList = s.NEList := rfl

theorem neReplaceAt_quality (s : SwapMesh) (v oldE newE : Int) :
    (neReplaceAt s v oldE newE).quality = s.quality := by
  simp only [neReplaceAt]
  split <;> rfl

theorem neEraseAt_quality (s : SwapMesh) (v oldE : Int) :
    (neEraseAt s v oldE).quality = s.quality := by
  simp only [neEraseAt]
  split <;> rfl

theorem NEok_nel (qlen : Nat) (ne : List (List Int)) (h : NEok qlen ne)
    (j : Nat) : ∀ e ∈ ne.getD j [], e = -1 ∨ (0 ≤ e ∧ e.toNat < qlen) := by
  intro e he
  by_cases hj : j < ne.length
  · exact h _ (getD_mem_of_lt ne j [] hj) e he
  · rw [List.getD_eq_default ne [] (le_of_not_lt hj)] at he
    simp at he

theorem NEok_setNEentry (qlen : Nat) (s : SwapMesh) (v : Int) (i : Nat)
    (x : Int) (h : NEok qlen s.NEList)
    (hx : x = -1 ∨ (0 ≤ x ∧ x.toNat < qlen)) :
    NEok qlen (setNEentry s v i x).NEList := by
  intro l hl e he
  rcases List.mem_or_eq_of_mem_set hl with h1 | h2
  · exact h l h1 e he
  · subst h2
    rcases List.mem_or_eq_of_mem_set he with h3 | h4
    · exact NEok_nel qlen s.NEList h v.toNat e h3
    · subst h4
      exact hx

theorem NEok_neReplaceAt (qlen : Nat) (s : SwapMesh) (v oldE newE : Int)
    (hx : newE = -1 ∨ (0 ≤ newE ∧ newE.toNat < qlen))
    (h : NEok qlen s.NEList) :
    NEok qlen (neReplaceAt s v oldE newE).NEList := by
  simp only [neReplaceAt]
  split
  · exact NEok_setNEentry qlen s v _ newE h hx
  · exact h

theorem NEok_neEraseAt (qlen : Nat) (s : SwapMesh) (v oldE : Int)
    (h : NEok qlen s.NEList) :
    NEok qlen (neEraseAt s v oldE).NEList := by
  simp only [neEraseAt]
  split
  · exact NEok_setNEentry qlen s v _ (-1) h (Or.inl rfl)
  · exact h

theorem neighElements_mem (s : SwapMesh) (i opp x : Int)
    (hx : x ∈ neighElements s i opp) : x ∈ s.nel i ∧ ¬(x = -1) := by
  unfold neighElements at hx
  rw [List.mem_flatMap] at hx
  obtain ⟨k, hk, hmem⟩ := hx
  rw [List.mem_range] at hk
  split at hmem
  · rename_i hne
    rw [List.mem_filterMap] at hmem
    obtain ⟨l, hl, hsome⟩ := hmem
    split at hsome
    · have hx2 := Option.some_injective _ hsome
      subst hx2
      constructor
      · exact getD_mem_of_lt _ k (-1) (lt_of_lt_of_le hk (Nat.div_le_self _ 2))
      · exact hne
    · exact Option.noConfusion hsome
  · simp at hmem


theorem commitQ_quality (s : SwapMesh) (p : FlipPlan) :
    (commitQ s p).quality = (s.quality.set p.eid0.toNat p.q0).set p.eid1.toNat p.q1 := rfl

theorem commitQ_NEList (s : SwapMesh) (p : FlipPlan) :
    (commitQ s p).NEList = s.NEList := rfl

theorem commitDrop_quality (s : SwapMesh) (i it : Nat) (p : FlipPlan) :
    (commitDrop s i it p).quality = s.quality := by
  simp only [commitDrop, setNNentry_quality]

theorem commitDrop_NEList (s : SwapMesh) (i it : Nat) (p : FlipPlan) :
    (commitDrop s i it p).NEList = s.NEList := by
  simp only [commitDrop, setNNentry_NEList]

theorem commitAddLat_quality (s : SwapMesh) (i : Nat) (lat other idx_in : Int) :
    (commitAddLat s i lat other idx_in).quality = s.quality := by
  simp only [commitAddLat, setNNentry_quality]

theorem commitAddLat_NEList (s : SwapMesh) (i : Nat) (lat other idx_in : Int) :
    (commitAddLat s i lat other idx_in).NEList = s.NEList := by
  simp only [commitAddLat, setNNentry_NEList]

theorem commitNE_quality (s : SwapMesh) (p : FlipPlan) :
    (commitNE s p).quality = s.quality := by
  simp only [commitNE, neEraseAt_quality, neReplaceAt_quality]

theorem commitEN_quality (s : SwapMesh) (p : FlipPlan) :
    (commitEN s p).quality = s.quality := rfl

theorem commitEN_NEList (s : SwapMesh) (p : FlipPlan) :
    (commitEN s p).NEList = s.NEList := rfl

theorem commitMarks_quality (s : SwapMesh) (i it : Nat) (p : FlipPlan) :
    (commitMarks s i it p).quality = s.quality := by
  simp only [commitMarks, apply_ite SwapMesh.quality, setMark_quality, ite_self]

theorem commitMarks_NEList (s : SwapMesh) (i it : Nat) (p : FlipPlan) :
    (commitMarks s i it p).NEList = s.NEList := by
  simp only [commitMarks, apply_ite SwapMesh.NEList, setMark_NEList, ite_self]

theorem NEok_commitNE (qlen : Nat) (s : SwapMesh) (p : FlipPlan)
    (h0 : p.eid0 = -1 ∨ (0 ≤ p.eid0 ∧ p.eid0.toNat < qlen))
    (h1 : p.eid1 = -1 ∨ (0 ≤ p.eid1 ∧ p.eid1.toNat < qlen))
    (h : NEok qlen s.NEList) :
    NEok qlen (commitNE s p).NEList := by
  unfold commitNE
  apply NEok_neEraseAt
  apply NEok_neEraseAt
  exact NEok_neReplaceAt _ _ _ _ _ h0 (NEok_neReplaceAt _ _ _ _ _ h1 h)

theorem applyCommit_preserves (s0 : SwapMesh) (i it : Nat) (p : FlipPlan)
    (h : NEok s0.quality.length s0.NEList)
    (h0 : p.eid0 = -1 ∨ (0 ≤ p.eid0 ∧ p.eid0.toNat < s0.quality.length))
    (h1 : p.eid1 = -1 ∨ (0 ≤ p.eid1 ∧ p.eid1.toNat < s0.quality.length)) :
    (applyCommit s0 i it p).quality
      = (s0.quality.set p.eid0.toNat p.q0).set p.eid1.toNat p.q1 ∧
    NEok s0.quality.length (applyCommit s0 i it p).NEList := by
  constructor
  · rw [applyCommit, commitMarks_quality, commitEN_quality, commitNE_quality,
      commitAddLat_quality, commitAddLat_quality, commitDrop_quality,
      commitQ_quality]
  · rw [applyCommit, commitMarks_NEList, commitEN_NEList]
    apply NEok_commitNE _ _ _ h0 h1
    rw [commitAddLat_NEList, commitAddLat_NEList, commitDrop_NEList,
      commitQ_NEList]
    exact h


theorem processEdge_preserves (c : SwapCtx) (s : SwapMesh) (i it : Nat) (b : ℚ)
    (hInv : NEValid s) (hq : qLB b s) :
    NEValid (processEdge c s i it).1 ∧ qLB b (processEdge c s i it).1 := by
  unfold processEdge
  split
  · exact ⟨hInv, hq⟩
  · exact ⟨hInv, hq⟩
  · rename_i p hp
    obtain ⟨g1, g2, g3, g4, g5, g6, g7, g8, g9⟩ := decideEdge_commit c s i it p hp
    obtain ⟨hm0, hne0⟩ := neighElements_mem s (i : Int) p.opposite p.eid0 g4
    obtain ⟨hm1, hne1⟩ := neighElements_mem s (i : Int) p.opposite p.eid1 g5
    have hv0 : p.eid0 = -1 ∨ (0 ≤ p.eid0 ∧ p.eid0.toNat < s.quality.length) :=
      NEok_nel _ _ hInv _ _ hm0
    have hv1 : p.eid1 = -1 ∨ (0 ≤ p.eid1 ∧ p.eid1.toNat < s.quality.length) :=
      NEok_nel _ _ hInv _ _ hm1
    have hv0' := hv0.resolve_left hne0
    have hv1' := hv1.resolve_left hne1
    obtain ⟨hQ, hNE⟩ :=
      applyCommit_preserves s i it p hInv (Or.inr hv0') (Or.inr hv1')
    have hb0 : b ≤ s.quality.getD p.eid0.toNat 0 :=
      hq _ (getD_mem_of_lt _ _ _ hv0'.2)
    have hb1 : b ≤ s.quality.getD p.eid1.toNat 0 :=
      hq _ (getD_mem_of_lt _ _ _ hv1'.2)
    have hbw : b < min p.q0 p.q1 :=
      lt_of_le_of_lt (g6 ▸ le_min hb0 hb1) g7
    constructor
    · show NEok _ _
      rw [hQ, List.length_set, List.length_set]
      exact hNE
    · intro q hqmem
      rw [hQ] at hqmem
      rcases List.mem_or_eq_of_mem_set hqmem with h2 | h2
      · rcases List.mem_or_eq_of_mem_set h2 with h3 | h3
        · exact hq q h3
        · subst h3
          exact le_of_lt (lt_of_lt_of_le hbw (min_le_left _ _))
      · subst h2
        exact le_of_lt (lt_of_lt_of_le hbw (min_le_right _ _))

theorem processVertex_preserves (c : SwapCtx) (s : SwapMesh) (i : Nat) (b : ℚ)
    (hInv : NEValid s) (hq : qLB b s) :
    NEValid (processVertex c s i).1 ∧ qLB b (processVertex c s i).1 := by
  unfold processVertex
  split
  · exact ⟨hInv, hq⟩
  · exact foldLog_state (fun s2 it2 => processEdge c s2 i it2)
      (fun s2 => NEValid s2 ∧ qLB b s2)
      (fun s2 it2 h2 => processEdge_preserves c s2 i it2 b h2.1 h2.2)
      (List.range (s.origDeg.getD i 0)) (s, []) ⟨hInv, hq⟩

theorem swapPass_preserves (c : SwapCtx) (s : SwapMesh) (b : ℚ)
    (hInv : NEValid s) (hq : qLB b s) :
    NEValid (swapPass c s).1 ∧ qLB b (swapPass c s).1 := by
  unfold swapPass
  exact foldLog_state (processVertex c)
    (fun s2 => NEValid s2 ∧ qLB b s2)
    (fun s2 i2 h2 => processVertex_preserves c s2 i2 b h2.1 h2.2)
    (List.range s.NNList.length) (s, []) ⟨hInv, hq⟩


/-! ### 3D swaps: score folds, liveness and quality preservation -/

theorem foldlMin_le (l : List ℚ) (a : ℚ) :
    l.foldl (fun acc q => min q acc) a ≤ a ∧
    ∀ q ∈ l, l.foldl (fun acc q => min q acc) a ≤ q := by
  induction l generalizing a with
  | nil => exact ⟨le_refl a, by simp⟩
  | cons x t ih =>
      refine ⟨le_trans (ih (min x a)).1 (min_le_right x a), ?_⟩
      intro q hq
      rcases List.mem_cons.1 hq with h | h
      · subst h
        exact le_trans (ih (min q a)).1 (min_le_left q a)
      · exact (ih (min x a)).2 q h

theorem getD_mem_of_lt_q (l : List ℚ) (j : Nat) (d : ℚ)
    (h : j < l.length) : l.getD j d ∈ l := by
  rw [List.getD_eq_getElem l d h]
  exact List.getElem_mem h

theorem minOfScores_le (l : List ℚ) (j : Nat) (hj : j < l.length) :
    minOfScores l ≤ l.getD j 0 := by
  unfold minOfScores
  exact (foldlMin_le l (l.getD 0 0)).2 _ (getD_mem_of_lt_q l j 0 hj)

theorem map_minOf_getD (l : List (List ℚ)) (i : Nat) :
    (l.map minOfScores).getD i 0 = minOfScores (l.getD i []) := by
  rw [show (0 : ℚ) = minOfScores [] from rfl]
  exact List.getD_map l [] minOfScores

theorem getD_after_erase_self (l : List Int) (x : Nat) :
    ((((l.set (4 * x) (-1)).set (4 * x + 1) (-1)).set (4 * x + 2) (-1)).set
      (4 * x + 3) (-1)).getD (4 * x) (-1) = -1 := by
  by_cases h : 4 * x < l.length
  · rw [getD_set_other _ _ _ (by omega), getD_set_other _ _ _ (by omega),
      getD_set_other _ _ _ (by omega)]
    exact getD_set_self l (4 * x) h (-1) (-1)
  · exact List.getD_eq_default _ _ (by simp only [List.length_set]; omega)

theorem erase3_preserves (m : Mesh3) (x : Nat) (b : ℚ)
    (hal : alignedM3 m) (hlb : liveLB b m) :
    alignedM3 (erase3 m x) ∧ liveLB b (erase3 m x) := by
  unfold alignedM3 at hal
  constructor
  · show (erase3 m x).ENList.length = 4 * (erase3 m x).quality.length
    simp only [erase3, List.length_set]
    exact hal
  · intro e he
    rw [show (erase3 m x).quality = m.quality from rfl]
    by_cases hex : e = x
    · subst hex
      exfalso
      unfold Mesh3.live erase3 at he
      rw [getD_after_erase_self m.ENList e] at he
      simp at he
    · apply hlb e
      unfold Mesh3.live erase3 at he
      rw [getD_set_other _ _ _ (by omega), getD_set_other _ _ _ (by omega),
        getD_set_other _ _ _ (by omega), getD_set_other _ _ _ (by omega)] at he
      exact he

theorem foldl_erase3_preserves (cavity : List Nat) (m : Mesh3) (b : ℚ)
    (hal : alignedM3 m) (hlb : liveLB b m) :
    alignedM3 (cavity.foldl erase3 m) ∧ liveLB b (cavity.foldl erase3 m) := by
  induction cavity generalizing m with
  | nil => exact ⟨hal, hlb⟩
  | cons x t ih =>
      obtain ⟨h1, h2⟩ := erase3_preserves m x b hal hlb
      exact ih (erase3 m x) h1 h2

theorem append3_preserves (m : Mesh3) (nodes : List Int) (q : ℚ) (b : ℚ)
    (hnodes : nodes.length = 4) (hal : alignedM3 m) (hlb : liveLB b m)
    (hq : b ≤ q) :
    alignedM3 (append3 m nodes q) ∧ liveLB b (append3 m nodes q) := by
  unfold alignedM3 at hal
  constructor
  · show (m.ENList ++ nodes).length = 4 * (m.quality ++ [q]).length
    simp only [List.length_append, List.length_singleton, hnodes]
    omega
  · intro e he
    show b ≤ (m.quality ++ [q]).getD e 0
    rcases Nat.lt_trichotomy e m.quality.length with hlt | heq | hgt
    · rw [List.getD_append _ _ _ _ hlt]
      apply hlb e
      unfold Mesh3.live append3 at he
      rw [List.getD_append _ _ _ _ (by omega)] at he
      exact he
    · subst heq
      rw [List.getD_append_right _ _ _ _ (le_refl _), Nat.sub_self]
      exact hq
    · exfalso
      unfold Mesh3.live append3 at he
      rw [List.getD_eq_default _ _
        (by simp only [List.length_append]; omega)] at he
      simp at he

theorem appendTets_preserves (nel : Nat) (opt : List Int) (qs : List ℚ)
    (m : Mesh3) (b : ℚ) (hal : alignedM3 m) (hlb : liveLB b m)
    (hqs : ∀ j, j < nel → b ≤ qs.getD j 0) :
    alignedM3 (appendTets m opt qs nel) ∧
    liveLB b (appendTets m opt qs nel) := by
  unfold appendTets
  induction nel generalizing m with
  | zero => exact ⟨hal, hlb⟩
  | succ n ih =>
      rw [List.range_succ, List.foldl_append]
      have hstep := ih m hal hlb (fun j hj => hqs j (Nat.lt_succ_of_lt hj))
      simp only [List.foldl_cons, List.foldl_nil]
      exact append3_preserves _ _ _ b rfl hstep.1 hstep.2
        (hqs n (Nat.lt_succ_self n))

theorem cavityMinQ_ge (m : Mesh3) (eid0 : Nat) (cavity : List Nat) (b : ℚ)
    (hlb : liveLB b m) (h0 : m.live eid0 = true)
    (hc : ∀ e ∈ cavity, m.live e = true) :
    b ≤ cavityMinQ m eid0 cavity := by
  unfold cavityMinQ
  have hgen : ∀ (l : List Nat) (a : ℚ), b ≤ a →
      (∀ e ∈ l, m.live e = true) →
      b ≤ l.foldl (fun a2 e => min (m.quality.getD e 0) a2) a := by
    intro l
    induction l with
    | nil => intro a ha _; exact ha
    | cons x t ih =>
        intro a ha hall
        exact ih _ (le_min (hlb x (hall x (by simp))) ha)
          (fun e he => hall e (List.mem_cons_of_mem x he))
  exact hgen cavity _ (hlb eid0 h0) hc


theorem faceEdgeSwap_preserves (q4 : Int → Int → Int → Int → ℚ)
    (m : Mesh3) (eid0 eid1 : Nat) (hull : List Int) (b : ℚ)
    (hal : alignedM3 m) (h0 : m.live eid0 = true) (h1 : m.live eid1 = true)
    (hlb : liveLB b m) :
    alignedM3 (faceEdgeSwap q4 m eid0 eid1 hull) ∧
    liveLB b (faceEdgeSwap q4 m eid0 eid1 hull) := by
  simp only [faceEdgeSwap]
  split
  · rename_i hacc
    have hmin : b ≤ min (m.quality.getD eid0 0) (m.quality.getD eid1 0) :=
      le_min (hlb _ h0) (hlb _ h1)
    have hlt := lt_of_le_of_lt hmin hacc
    obtain ⟨ha1, hl1⟩ := erase3_preserves m eid0 b hal hlb
    obtain ⟨ha2, hl2⟩ := erase3_preserves _ eid1 b ha1 hl1
    obtain ⟨ha3, hl3⟩ := append3_preserves _
      [hull.getD 0 (-1), hull.getD 1 (-1), hull.getD 4 (-1), hull.getD 3 (-1)]
      (q4 (hull.getD 0 (-1)) (hull.getD 1 (-1)) (hull.getD 4 (-1))
        (hull.getD 3 (-1))) b rfl ha2 hl2
      (le_of_lt (lt_of_lt_of_le hlt (min_le_left _ _)))
    obtain ⟨ha4, hl4⟩ := append3_preserves _
      [hull.getD 1 (-1), hull.getD 2 (-1), hull.getD 4 (-1), hull.getD 3 (-1)]
      (q4 (hull.getD 1 (-1)) (hull.getD 2 (-1)) (hull.getD 4 (-1))
        (hull.getD 3 (-1))) b rfl ha3 hl3
      (le_of_lt (lt_of_lt_of_le hlt
        (le_trans (min_le_right _ _) (min_le_left _ _))))
    obtain ⟨ha5, hl5⟩ := append3_preserves _
      [hull.getD 2 (-1), hull.getD 0 (-1), hull.getD 4 (-1), hull.getD 3 (-1)]
      (q4 (hull.getD 2 (-1)) (hull.getD 0 (-1)) (hull.getD 4 (-1))
        (hull.getD 3 (-1))) b rfl ha4 hl4
      (le_of_lt (lt_of_lt_of_le hlt
        (le_trans (min_le_right _ _) (min_le_right _ _))))
    exact ⟨ha5, hl5⟩
  · exact ⟨hal, hlb⟩

theorem edgeFaceSelect_path1 (q4 : Int → Int → Int → Int → ℚ) (nel : Nat)
    (opts : List (List Int))
    (c1 : ¬ (((opts.map (optScores q4 nel)).map minOfScores).getD
      (bestOption ((opts.map (optScores q4 nel)).map minOfScores)) 0 < 0)) :
    edgeFaceSelect q4 nel opts =
      (opts, opts.map (optScores q4 nel),
        bestOption ((opts.map (optScores q4 nel)).map minOfScores)) := by
  simp only [edgeFaceSelect]
  rw [if_neg c1]

theorem edgeFaceSelect_path2 (q4 : Int → Int → Int → Int → ℚ) (nel : Nat)
    (opts : List (List Int))
    (c1 : ((opts.map (optScores q4 nel)).map minOfScores).getD
      (bestOption ((opts.map (optScores q4 nel)).map minOfScores)) 0 < 0)
    (c2 : ¬ ((((opts.map invertTets).map (optScores q4 nel)).map
        minOfScores).getD
      (bestOption (((opts.map invertTets).map (optScores q4 nel)).map
        minOfScores)) 0 < 0)) :
    edgeFaceSelect q4 nel opts =
      (opts.map invertTets, (opts.map invertTets).map (optScores q4 nel),
        bestOption (((opts.map invertTets).map (optScores q4 nel)).map
          minOfScores)) := by
  simp only [edgeFaceSelect]
  rw [if_pos c1, if_neg c2]

theorem edgeFaceSelect_path3 (q4 : Int → Int → Int → Int → ℚ) (nel : Nat)
    (opts : List (List Int))
    (c1 : ((opts.map (optScores q4 nel)).map minOfScores).getD
      (bestOption ((opts.map (optScores q4 nel)).map minOfScores)) 0 < 0)
    (c2 : (((opts.map invertTets).map (optScores q4 nel)).map
        minOfScores).getD
      (bestOption (((opts.map invertTets).map (optScores q4 nel)).map
        minOfScores)) 0 < 0) :
    edgeFaceSelect q4 nel opts =
      ((opts.map invertTets).map invertTets,
        (opts.map invertTets).map (optScores q4 nel),
        bestOption (((opts.map invertTets).map (optScores q4 nel)).map
          minOfScores)) := by
  simp only [edgeFaceSelect]
  rw [if_pos c1, if_pos c2]

theorem edgeFaceSelect_cached (q4 : Int → Int → Int → Int → ℚ) (nel : Nat)
    (opts : List (List Int))
    (hpos : 0 ≤ ((edgeFaceSelect q4 nel opts).2.1.map minOfScores).getD
      (edgeFaceSelect q4 nel opts).2.2 0) :
    (edgeFaceSelect q4 nel opts).2.1
      = (edgeFaceSelect q4 nel opts).1.map (optScores q4 nel) := by
  by_cases c1 : ((opts.map (optScores q4 nel)).map minOfScores).getD
      (bestOption ((opts.map (optScores q4 nel)).map minOfScores)) 0 < 0
  · by_cases c2 : (((opts.map invertTets).map (optScores q4 nel)).map
        minOfScores).getD
      (bestOption (((opts.map invertTets).map (optScores q4 nel)).map
        minOfScores)) 0 < 0
    · exfalso
      rw [edgeFaceSelect_path3 q4 nel opts c1 c2] at hpos
      exact absurd (lt_of_le_of_lt hpos c2) (lt_irrefl 0)
    · rw [edgeFaceSelect_path2 q4 nel opts c1 c2]
  · rw [edgeFaceSelect_path1 q4 nel opts c1]

theorem edgeFaceSelect_newq (q4 : Int → Int → Int → Int → ℚ) (nel : Nat)
    (opts : List (List Int)) :
    ∃ base : List (List Int),
      (edgeFaceSelect q4 nel opts).2.1 = base.map (optScores q4 nel) := by
  by_cases c1 : ((opts.map (optScores q4 nel)).map minOfScores).getD
      (bestOption ((opts.map (optScores q4 nel)).map minOfScores)) 0 < 0
  · by_cases c2 : (((opts.map invertTets).map (optScores q4 nel)).map
        minOfScores).getD
      (bestOption (((opts.map invertTets).map (optScores q4 nel)).map
        minOfScores)) 0 < 0
    · rw [edgeFaceSelect_path3 q4 nel opts c1 c2]
      exact ⟨opts.map invertTets, rfl⟩
    · rw [edgeFaceSelect_path2 q4 nel opts c1 c2]
      exact ⟨opts.map invertTets, rfl⟩
  · rw [edgeFaceSelect_path1 q4 nel opts c1]
    exact ⟨opts, rfl⟩


theorem edgeFace_preserves (q4 : Int → Int → Int → Int → ℚ) (m : Mesh3)
    (eid0 : Nat) (cavity : List Nat) (ce : List Int) (nk nl : Int) (b : ℚ)
    (hal : alignedM3 m) (hlb : liveLB b m) (h0 : m.live eid0 = true)
    (hcav : ∀ e ∈ cavity, m.live e = true)
    (hminQ : 0 ≤ cavityMinQ m eid0 cavity) :
    alignedM3 (edgeFaceCommit q4 m eid0 cavity ce nk nl) ∧
    liveLB b (edgeFaceCommit q4 m eid0 cavity ce nk nl) := by
  simp only [edgeFaceCommit]
  split
  · exact ⟨hal, hlb⟩
  split
  · exact ⟨hal, hlb⟩
  rename_i hle
  have hscore := lt_of_not_le hle
  obtain ⟨he1, he2⟩ := foldl_erase3_preserves cavity m b hal hlb
  have hb : b ≤ cavityMinQ m eid0 cavity :=
    cavityMinQ_ge m eid0 cavity b hlb h0 hcav
  rw [map_minOf_getD] at hscore
  apply appendTets_preserves _ _ _ _ b he1 he2
  intro j hj
  obtain ⟨base, hbase⟩ := edgeFaceSelect_newq q4
    (((edgeFaceOptions ce nk nl cavity.length).getD 0 []).length / 4)
    (edgeFaceOptions ce nk nl cavity.length)
  by_cases hbl : (edgeFaceSelect q4
      (((edgeFaceOptions ce nk nl cavity.length).getD 0 []).length / 4)
      (edgeFaceOptions ce nk nl cavity.length)).2.2 <
    (edgeFaceSelect q4
      (((edgeFaceOptions ce nk nl cavity.length).getD 0 []).length / 4)
      (edgeFaceOptions ce nk nl cavity.length)).2.1.length
  · have hlen : ((edgeFaceSelect q4
        (((edgeFaceOptions ce nk nl cavity.length).getD 0 []).length / 4)
        (edgeFaceOptions ce nk nl cavity.length)).2.1.getD
          (edgeFaceSelect q4
            (((edgeFaceOptions ce nk nl cavity.length).getD 0 []).length / 4)
            (edgeFaceOptions ce nk nl cavity.length)).2.2 []).length
        = ((edgeFaceOptions ce nk nl cavity.length).getD 0 []).length / 4 := by
      rw [hbase] at hbl ⊢
      rw [List.getD_eq_getElem _ _ hbl, List.getElem_map]
      simp [optScores]
    exact le_of_lt (lt_of_le_of_lt hb (lt_of_lt_of_le hscore
      (minOfScores_le _ j (by rw [hlen]; exact hj))))
  · exfalso
    rw [List.getD_eq_default _ _ (le_of_not_lt hbl)] at hscore
    have h00 : minOfScores ([] : List ℚ) ≤ cavityMinQ m eid0 cavity := by
      rw [show minOfScores ([] : List ℚ) = (0 : ℚ) from rfl]
      exact hminQ
    exact absurd hscore (not_lt_of_le h00)


theorem mesh3A_liveLB : liveLB 0 mesh3A := by
  intro e _
  match e with
  | 0 => norm_num [mesh3A]
  | 1 => norm_num [mesh3A]
  | (n + 2) =>
      rw [List.getD_eq_default]
      simp [mesh3A]

theorem mesh3B_liveLB : liveLB 0 mesh3B := by
  intro e _
  match e with
  | 0 => norm_num [mesh3B]
  | 1 => norm_num [mesh3B]
  | 2 => norm_num [mesh3B]
  | (n + 3) =>
      rw [List.getD_eq_default]
      simp [mesh3B]


/-- **C9**. The edge-to-face templates enumerate exactly 1, 2, 5, 1
candidate retriangulations for cavities of 3, 4, 5, 6 tetrahedra and
none for any other size; when the best candidate score of the first
round is negative, node indices 0 and 1 of every tetrahedron of every
candidate are swapped once and the acceptance data are exactly the
re-scored swapped candidates (which are also the committed element lists
whenever their best score is nonnegative); and the best candidate is
committed only if its minimum quality strictly exceeds `min_quality` of
the existing cavity — otherwise the mesh is unchanged. -/
theorem claim_C9 :
    (∀ (ce : List Int) (nk nl : Int),
      (edgeFaceOptions ce nk nl 3).length = 1 ∧
      (edgeFaceOptions ce nk nl 4).length = 2 ∧
      (edgeFaceOptions ce nk nl 5).length = 5 ∧
      (edgeFaceOptions ce nk nl 6).length = 1 ∧
      (∀ k : Nat, k ≠ 3 → k ≠ 4 → k ≠ 5 → k ≠ 6 →
        edgeFaceOptions ce nk nl k = [])) ∧
    (∀ (q4 : Int → Int → Int → Int → ℚ) (nel : Nat)
        (opts : List (List Int)),
      ((opts.map (optScores q4 nel)).map minOfScores).getD
        (bestOption ((opts.map (optScores q4 nel)).map minOfScores)) 0 < 0 →
      (edgeFaceSelect q4 nel opts).2.1
          = (opts.map invertTets).map (optScores q4 nel) ∧
      (edgeFaceSelect q4 nel opts).2.2
          = bestOption (((opts.map invertTets).map (optScores q4 nel)).map
            minOfScores) ∧
      (¬ ((((opts.map invertTets).map (optScores q4 nel)).map
            minOfScores).getD
          (bestOption (((opts.map invertTets).map (optScores q4 nel)).map
            minOfScores)) 0 < 0) →
        (edgeFaceSelect q4 nel opts).1 = opts.map invertTets)) ∧
    (∀ (q4 : Int → Int → Int → Int → ℚ) (m : Mesh3) (eid0 : Nat)
        (cavity : List Nat) (ce : List Int) (nk nl : Int),
      ((edgeFaceSelect q4
          (((edgeFaceOptions ce nk nl cavity.length).getD 0 []).length / 4)
          (edgeFaceOptions ce nk nl cavity.length)).2.1.map
            minOfScores).getD
        (edgeFaceSelect q4
          (((edgeFaceOptions ce nk nl cavity.length).getD 0 []).length / 4)
          (edgeFaceOptions ce nk nl cavity.length)).2.2 0
        ≤ cavityMinQ m eid0 cavity →
      edgeFaceCommit q4 m eid0 cavity ce nk nl = m) := by
  refine ⟨?_, ?_, ?_⟩
  · intro ce nk nl
    refine ⟨rfl, rfl, rfl, rfl, ?_⟩
    intro k h3 h4 h5 h6
    simp [edgeFaceOptions, h3, h4, h5, h6]
  · intro q4 nel opts hneg
    by_cases c2 : (((opts.map invertTets).map (optScores q4 nel)).map
        minOfScores).getD
      (bestOption (((opts.map invertTets).map (optScores q4 nel)).map
        minOfScores)) 0 < 0
    · rw [edgeFaceSelect_path3 q4 nel opts hneg c2]
      exact ⟨rfl, rfl, fun hc => absurd c2 hc⟩
    · rw [edgeFaceSelect_path2 q4 nel opts hneg c2]
      exact ⟨rfl, rfl, fun _ => rfl⟩
  · intro q4 m eid0 cavity ce nk nl hle
    by_cases hemp : (edgeFaceOptions ce nk nl cavity.length).isEmpty
    · simp only [edgeFaceCommit]
      rw [if_pos hemp]
    · simp only [edgeFaceCommit]
      rw [if_neg hemp, if_pos hle]

/-- Witness for C9: the no-template branch at cavity size 7; the invert
round on a single all-negative candidate under `q4flip` (second round
nonnegative, so the swapped candidate is also the committed list); and
the rejection branch on `mesh3B`, whose constant zero scores do not
strictly exceed `min_quality = 0`. -/
theorem claim_C9_witness :
    edgeFaceOptions ceB 1 2 7 = [] ∧
    ((edgeFaceSelect q4flip 1 [[0, 1, 2, 3]]).2.1
        = ([[0, 1, 2, 3]].map invertTets).map (optScores q4flip 1) ∧
      (edgeFaceSelect q4flip 1 [[0, 1, 2, 3]]).2.2
        = bestOption ((([[0, 1, 2, 3]].map invertTets).map
            (optScores q4flip 1)).map minOfScores) ∧
      (edgeFaceSelect q4flip 1 [[0, 1, 2, 3]]).1
        = [[0, 1, 2, 3]].map invertTets) ∧
    edgeFaceCommit q4zero mesh3B 0 [0, 1, 2] ceB 1 2 = mesh3B := by
  have h2 := claim_C9.2.1 q4flip 1 [[0, 1, 2, 3]] (by decide)
  exact ⟨(claim_C9.1 ceB 1 2).2.2.2.2 7 (by decide) (by decide) (by decide)
      (by decide),
    ⟨h2.1, h2.2.1, h2.2.2 (by decide)⟩,
    claim_C9.2.2 q4zero mesh3B 0 [0, 1, 2] ceB 1 2 (by decide)⟩


theorem optScores_getD (q4 : Int → Int → Int → Int → ℚ) (nel : Nat)
    (opt : List Int) (j : Nat) (hj : j < nel) :
    (optScores q4 nel opt).getD j 0 = tetQual q4 opt j := by
  unfold optScores
  rw [List.getD_eq_getElem _ _
      (by simp only [List.length_map, List.length_range]; exact hj),
    List.getElem_map, List.getElem_range]

/-- **C1**. Every committed swap strictly improves the worst quality of
the elements it replaces, and the global lower bound on (live) element
qualities is preserved: (1) every 2D flip in the commit log has
`min(q0, q1)` strictly above the cached worst of the replaced pair;
(2) a 2D sweep preserves `NEList` validity and every lower bound on the
quality cache; (3) an accepted 3D face-to-edge swap appends exactly the
three new qualities, each strictly above the worst of the replaced
pair; (4) it preserves alignment and every live-quality lower bound;
(5) an accepted 3D edge-to-face swap (from a cavity whose `min_quality`
is nonnegative, ruling out the stale-score double-inversion path) gives
every committed tetrahedron a true quality strictly above `min_quality`;
(6) it preserves alignment and every live-quality lower bound. -/
theorem claim_C1 :
    (∀ (c : SwapCtx) (s : SwapMesh), ∀ e ∈ (swapPass c s).2,
      e.plan.worst = min (e.pre.quality.getD e.plan.eid0.toNat 0)
        (e.pre.quality.getD e.plan.eid1.toNat 0) ∧
      min e.plan.q0 e.plan.q1 > e.plan.worst) ∧
    (∀ (c : SwapCtx) (s : SwapMesh) (b : ℚ), NEValid s → qLB b s →
      NEValid (swapPass c s).1 ∧ qLB b (swapPass c s).1) ∧
    (∀ (q4 : Int → Int → Int → Int → ℚ) (m : Mesh3) (eid0 eid1 : Nat)
        (hull : List Int),
      min (m.quality.getD eid0 0) (m.quality.getD eid1 0) <
        min (q4 (hull.getD 0 (-1)) (hull.getD 1 (-1)) (hull.getD 4 (-1)) (hull.getD 3 (-1))) (min (q4 (hull.getD 1 (-1)) (hull.getD 2 (-1)) (hull.getD 4 (-1)) (hull.getD 3 (-1))) (q4 (hull.getD 2 (-1)) (hull.getD 0 (-1)) (hull.getD 4 (-1)) (hull.getD 3 (-1)))) →
      (faceEdgeSwap q4 m eid0 eid1 hull).quality
          = m.quality ++ [q4 (hull.getD 0 (-1)) (hull.getD 1 (-1)) (hull.getD 4 (-1)) (hull.getD 3 (-1)), q4 (hull.getD 1 (-1)) (hull.getD 2 (-1)) (hull.getD 4 (-1)) (hull.getD 3 (-1)), q4 (hull.getD 2 (-1)) (hull.getD 0 (-1)) (hull.getD 4 (-1)) (hull.getD 3 (-1))] ∧
      min (m.quality.getD eid0 0) (m.quality.getD eid1 0) < q4 (hull.getD 0 (-1)) (hull.getD 1 (-1)) (hull.getD 4 (-1)) (hull.getD 3 (-1)) ∧
      min (m.quality.getD eid0 0) (m.quality.getD eid1 0) < q4 (hull.getD 1 (-1)) (hull.getD 2 (-1)) (hull.getD 4 (-1)) (hull.getD 3 (-1)) ∧
      min (m.quality.getD eid0 0) (m.quality.getD eid1 0) < q4 (hull.getD 2 (-1)) (hull.getD 0 (-1)) (hull.getD 4 (-1)) (hull.getD 3 (-1))) ∧
    (∀ (q4 : Int → Int → Int → Int → ℚ) (m : Mesh3) (eid0 eid1 : Nat)
        (hull : List Int) (b : ℚ),
      alignedM3 m → m.live eid0 = true → m.live eid1 = true → liveLB b m →
      alignedM3 (faceEdgeSwap q4 m eid0 eid1 hull) ∧
      liveLB b (faceEdgeSwap q4 m eid0 eid1 hull)) ∧
    (∀ (q4 : Int → Int → Int → Int → ℚ) (m : Mesh3) (eid0 : Nat)
        (cavity : List Nat) (ce : List Int) (nk nl : Int) (j : Nat),
      0 ≤ cavityMinQ m eid0 cavity →
      cavityMinQ m eid0 cavity <
        ((edgeFaceSelect q4 (((edgeFaceOptions ce nk nl cavity.length).getD 0 []).length / 4) (edgeFaceOptions ce nk nl cavity.length)).2.1.map minOfScores).getD (edgeFaceSelect q4 (((edgeFaceOptions ce nk nl cavity.length).getD 0 []).length / 4) (edgeFaceOptions ce nk nl cavity.length)).2.2 0 →
      j < (((edgeFaceOptions ce nk nl cavity.length).getD 0 []).length / 4) →
      cavityMinQ m eid0 cavity <
        tetQual q4 ((edgeFaceSelect q4 (((edgeFaceOptions ce nk nl cavity.length).getD 0 []).length / 4) (edgeFaceOptions ce nk nl cavity.length)).1.getD (edgeFaceSelect q4 (((edgeFaceOptions ce nk nl cavity.length).getD 0 []).length / 4) (edgeFaceOptions ce nk nl cavity.length)).2.2 []) j) ∧
    (∀ (q4 : Int → Int → Int → Int → ℚ) (m : Mesh3) (eid0 : Nat)
        (cavity : List Nat) (ce : List Int) (nk nl : Int) (b : ℚ),
      alignedM3 m → liveLB b m → m.live eid0 = true →
      (∀ e ∈ cavity, m.live e = true) → 0 ≤ cavityMinQ m eid0 cavity →
      alignedM3 (edgeFaceCommit q4 m eid0 cavity ce nk nl) ∧
      liveLB b (edgeFaceCommit q4 m eid0 cavity ce nk nl)) := by
  refine ⟨?_, ?_, ?_, ?_, ?_, ?_⟩
  · intro c s e he
    obtain ⟨h1, h2⟩ := swapPass_log c s e he
    obtain ⟨g1, g2, g3, g4, g5, g6, g7, g8, g9⟩ :=
      decideEdge_commit c e.pre e.i e.it e.plan h2
    exact ⟨g6, g7⟩
  · intro c s b hInv hq
    exact swapPass_preserves c s b hInv hq
  · intro q4 m eid0 eid1 hull hacc
    constructor
    · simp only [faceEdgeSwap]
      rw [if_pos hacc]
      simp [append3, erase3, List.append_assoc]
    · obtain ⟨h1, h23⟩ := lt_min_iff.mp hacc
      obtain ⟨h2, h3⟩ := lt_min_iff.mp h23
      exact ⟨h1, h2, h3⟩
  · intro q4 m eid0 eid1 hull b hal h0 h1 hlb
    exact faceEdgeSwap_preserves q4 m eid0 eid1 hull b hal h0 h1 hlb
  · intro q4 m eid0 cavity ce nk nl j hminQ hgt hj
    have hpos : (0 : ℚ) ≤
        ((edgeFaceSelect q4 (((edgeFaceOptions ce nk nl cavity.length).getD 0 []).length / 4) (edgeFaceOptions ce nk nl cavity.length)).2.1.map minOfScores).getD (edgeFaceSelect q4 (((edgeFaceOptions ce nk nl cavity.length).getD 0 []).length / 4) (edgeFaceOptions ce nk nl cavity.length)).2.2 0 :=
      le_trans hminQ (le_of_lt hgt)
    have hcach := edgeFaceSelect_cached q4 (((edgeFaceOptions ce nk nl cavity.length).getD 0 []).length / 4) (edgeFaceOptions ce nk nl cavity.length) hpos
    rw [map_minOf_getD] at hgt
    by_cases hbl : (edgeFaceSelect q4 (((edgeFaceOptions ce nk nl cavity.length).getD 0 []).length / 4) (edgeFaceOptions ce nk nl cavity.length)).2.2 < (edgeFaceSelect q4 (((edgeFaceOptions ce nk nl cavity.length).getD 0 []).length / 4) (edgeFaceOptions ce nk nl cavity.length)).2.1.length
    · rw [hcach] at hgt hbl
      rw [List.getD_eq_getElem _ _ hbl, List.getElem_map] at hgt
      have hbl2 : (edgeFaceSelect q4 (((edgeFaceOptions ce nk nl cavity.length).getD 0 []).length / 4) (edgeFaceOptions ce nk nl cavity.length)).2.2 < (edgeFaceSelect q4 (((edgeFaceOptions ce nk nl cavity.length).getD 0 []).length / 4) (edgeFaceOptions ce nk nl cavity.length)).1.length := by
        simpa using hbl
      rw [List.getD_eq_getElem _ _ hbl2]
      have hle2 := minOfScores_le
        (optScores q4 (((edgeFaceOptions ce nk nl cavity.length).getD 0 []).length / 4) ((edgeFaceSelect q4 (((edgeFaceOptions ce nk nl cavity.length).getD 0 []).length / 4) (edgeFaceOptions ce nk nl cavity.length)).1.get ⟨(edgeFaceSelect q4 (((edgeFaceOptions ce nk nl cavity.length).getD 0 []).length / 4) (edgeFaceOptions ce nk nl cavity.length)).2.2, hbl2⟩)) j
        (by simp only [optScores, List.length_map, List.length_range]
            exact hj)
      rw [optScores_getD q4 _ _ j hj] at hle2
      rw [List.get_eq_getElem] at hle2
      exact lt_of_lt_of_le hgt hle2
    · exfalso
      rw [List.getD_eq_default _ _ (le_of_not_lt hbl)] at hgt
      refine absurd hgt (not_lt_of_le ?_)
      rw [show minOfScores ([] : List ℚ) = (0 : ℚ) from rfl]
      exact hminQ
  · intro q4 m eid0 cavity ce nk nl b hal hlb h0 hcav hminQ
    exact edgeFace_preserves q4 m eid0 cavity ce nk nl b hal hlb h0 hcav hminQ


theorem swapMeshB_NEValid : NEValid swapMeshB := by
  unfold NEValid NEok
  decide

theorem swapMeshB_qLB : qLB 0 swapMeshB := by
  unfold qLB
  decide

/-- Witness for C1: the recorded 2D commit of `swapMeshB` satisfies the
strict-improvement inequality; the sweep preserves validity and the zero
lower bound; the accepted face-to-edge swap on `mesh3A` and the accepted
edge-to-face swap on `mesh3B` (both scored by the constant oracle
`q4one`) satisfy the local and preservation conclusions. -/
theorem claim_C1_witness :
    (commitB.plan.worst
        = min (commitB.pre.quality.getD commitB.plan.eid0.toNat 0)
          (commitB.pre.quality.getD commitB.plan.eid1.toNat 0) ∧
      min commitB.plan.q0 commitB.plan.q1 > commitB.plan.worst) ∧
    (NEValid (swapPass swapCtxB swapMeshB).1 ∧
      qLB 0 (swapPass swapCtxB swapMeshB).1) ∧
    ((faceEdgeSwap q4one mesh3A 0 1 [0, 1, 2, 3, 4]).quality
        = mesh3A.quality ++ [q4one (([0, 1, 2, 3, 4] : List Int).getD 0 (-1)) (([0, 1, 2, 3, 4] : List Int).getD 1 (-1)) (([0, 1, 2, 3, 4] : List Int).getD 4 (-1)) (([0, 1, 2, 3, 4] : List Int).getD 3 (-1)), q4one (([0, 1, 2, 3, 4] : List Int).getD 1 (-1)) (([0, 1, 2, 3, 4] : List Int).getD 2 (-1)) (([0, 1, 2, 3, 4] : List Int).getD 4 (-1)) (([0, 1, 2, 3, 4] : List Int).getD 3 (-1)), q4one (([0, 1, 2, 3, 4] : List Int).getD 2 (-1)) (([0, 1, 2, 3, 4] : List Int).getD 0 (-1)) (([0, 1, 2, 3, 4] : List Int).getD 4 (-1)) (([0, 1, 2, 3, 4] : List Int).getD 3 (-1))] ∧
      min (mesh3A.quality.getD 0 0) (mesh3A.quality.getD 1 0) < q4one (([0, 1, 2, 3, 4] : List Int).getD 0 (-1)) (([0, 1, 2, 3, 4] : List Int).getD 1 (-1)) (([0, 1, 2, 3, 4] : List Int).getD 4 (-1)) (([0, 1, 2, 3, 4] : List Int).getD 3 (-1)) ∧
      min (mesh3A.quality.getD 0 0) (mesh3A.quality.getD 1 0) < q4one (([0, 1, 2, 3, 4] : List Int).getD 1 (-1)) (([0, 1, 2, 3, 4] : List Int).getD 2 (-1)) (([0, 1, 2, 3, 4] : List Int).getD 4 (-1)) (([0, 1, 2, 3, 4] : List Int).getD 3 (-1)) ∧
      min (mesh3A.quality.getD 0 0) (mesh3A.quality.getD 1 0) < q4one (([0, 1, 2, 3, 4] : List Int).getD 2 (-1)) (([0, 1, 2, 3, 4] : List Int).getD 0 (-1)) (([0, 1, 2, 3, 4] : List Int).getD 4 (-1)) (([0, 1, 2, 3, 4] : List Int).getD 3 (-1))) ∧
    (alignedM3 (faceEdgeSwap q4one mesh3A 0 1 [0, 1, 2, 3, 4]) ∧
      liveLB 0 (faceEdgeSwap q4one mesh3A 0 1 [0, 1, 2, 3, 4])) ∧
    cavityMinQ mesh3B 0 [0, 1, 2] <
      tetQual q4one ((edgeFaceSelect q4one (((edgeFaceOptions ceB 1 2 ([0, 1, 2] : List Nat).length).getD 0 []).length / 4) (edgeFaceOptions ceB 1 2 ([0, 1, 2] : List Nat).length)).1.getD (edgeFaceSelect q4one (((edgeFaceOptions ceB 1 2 ([0, 1, 2] : List Nat).length).getD 0 []).length / 4) (edgeFaceOptions ceB 1 2 ([0, 1, 2] : List Nat).length)).2.2 []) 0 ∧
    (alignedM3 (edgeFaceCommit q4one mesh3B 0 [0, 1, 2] ceB 1 2) ∧
      liveLB 0 (edgeFaceCommit q4one mesh3B 0 [0, 1, 2] ceB 1 2)) :=
  ⟨claim_C1.1 swapCtxB swapMeshB commitB (by decide),
   claim_C1.2.1 swapCtxB swapMeshB 0 swapMeshB_NEValid swapMeshB_qLB,
   claim_C1.2.2.1 q4one mesh3A 0 1 [0, 1, 2, 3, 4] (by decide),
   claim_C1.2.2.2.1 q4one mesh3A 0 1 [0, 1, 2, 3, 4] 0 rfl rfl rfl
     mesh3A_liveLB,
   claim_C1.2.2.2.2.1 q4one mesh3B 0 [0, 1, 2] ceB 1 2 0 (by decide)
     (by decide) (by decide),
   claim_C1.2.2.2.2.2 q4one mesh3B 0 [0, 1, 2] ceB 1 2 0 rfl mesh3B_liveLB
     rfl (by decide) (by decide)⟩

end Pragmatic
